import Mathlib

/-!
# Deployment-metadata extraction (`script/extractDeployment.js`)

A shallow embedding of the script and the properties its specification
states about it.

Modelling conventions

* A JavaScript value is a `JsVal`: the JSON values plus `undefined` and `NaN`.
  Numbers are the integer-valued ones; the script computes with numbers only
  through `parseInt` on a chain identifier.
* File-system paths are lists of segments, relative to the repository root
  (the parent of the script directory); `path.join` is concatenation, which
  is what Node computes for segments free of separators and dot segments.
* `fs.existsSync`, `fs.readFileSync`, `fs.writeFileSync`, `fs.mkdirSync`,
  `new Date().toISOString()` and `process.exit` act on an explicit `World`.
  Writing a file and creating a directory always succeed; reading a path
  that holds no file raises.
* `JSON.parse` belongs to the runtime and is a parameter `parse` of every
  operation that reads a file: `none` stands for a raised `SyntaxError`.
  The round trip of an interface file is stated for `parseJson`, a parser of
  the JSON grammar into the values of the model.
* `console.log`, `console.warn` and `console.error` only report progress and
  are left out.
* The definitions assume no shape of a parsed file: a broadcast file or an
  artifact is whatever value `parse` returns, and property access, iteration
  and truthiness behave on it as in JavaScript. A theorem that needs the
  entries of a log to be objects says so.
-/

namespace ExtractDeployment

/-! ## JavaScript values -/

/-- A JavaScript value as the script can meet it: what `JSON.parse` returns,
plus `undefined` (a missing property) and `NaN` (a failed `parseInt`). The
property list of an object is in the enumeration order of its own keys and
holds each key once. -/
inductive JsVal where
  | undefined
  | null
  | bool (b : Bool)
  | num (n : Int)
  | nan
  | str (s : String)
  | arr (items : List JsVal)
  | obj (props : List (String × JsVal))

/-- The errors a run can raise. -/
inductive JsError where
  | parseError
  | typeError
  | ioError
  deriving DecidableEq, Repr

/-- Truthiness of a value, as tested by `if (abi)`. -/
def JsVal.isTruthy : JsVal → Bool
  | .undefined => false
  | .null => false
  | .bool b => b
  | .num n => n != 0
  | .nan => false
  | .str s => s != ""
  | .arr _ => true
  | .obj _ => true

/-- The test `v === s` against a string literal. -/
def JsVal.strictEqStr : JsVal → String → Bool
  | .str t, s => t == s
  | _, _ => false

/-- Whether the value is a JSON object. -/
def JsVal.isObject : JsVal → Bool
  | .obj _ => true
  | _ => false

/-- Property access `v.name` for the names the script reads (`abi`,
`transactions`, `transactionType`, `contractName`, `contractAddress`), none
of which is inherited from a prototype: reading a property of `undefined`
or `null` raises a `TypeError`, an object yields its own property or
`undefined`, every other value yields `undefined`. -/
def JsVal.getProp (v : JsVal) (name : String) : Except JsError JsVal :=
  match v with
  | .undefined => .error .typeError
  | .null => .error .typeError
  | .obj props => .ok ((props.lookup name).getD .undefined)
  | _ => .ok .undefined

/-- The values `for (const x of v)` runs through: the items of an array,
the characters of a string; any other value is not iterable. -/
def JsVal.iterate : JsVal → Except JsError (List JsVal)
  | .arr items => .ok items
  | .str s => .ok (s.toList.map fun c => JsVal.str (String.singleton c))
  | _ => .error .typeError

/-- The number a canonical array-index key denotes (`"0"`, `"8453"`; not
`"01"`, not `"CourseNFT"`). -/
def arrayIndex? (s : String) : Option Nat :=
  let cs := s.toList
  if cs.all Char.isDigit && !cs.isEmpty && (cs.length == 1 || cs.head? != some '0') then
    let n := cs.foldl (fun acc c => 10 * acc + (c.toNat - 48)) 0
    if n < 4294967295 then some n else none
  else none

/-- Insertion of a new array-index key: index keys are enumerated before all
other keys, in ascending numeric order. -/
def insertIndexKey (i : Nat) (k : String) (v : JsVal) :
    List (String × JsVal) → List (String × JsVal)
  | [] => [(k, v)]
  | (k', v') :: rest =>
    match arrayIndex? k' with
    | some j => if i < j then (k, v) :: (k', v') :: rest
                else (k', v') :: insertIndexKey i k v rest
    | none => (k, v) :: (k', v') :: rest

/-- The assignment `o[k] = v` on a plain object: an existing key keeps its
place and takes the new value, a new array-index key is placed among the
index keys, any other new key is appended. -/
def setProp (o : List (String × JsVal)) (k : String) (v : JsVal) : List (String × JsVal) :=
  if o.any (fun p => p.1 == k) then
    o.map (fun p => if p.1 == k then (k, v) else p)
  else
    match arrayIndex? k with
    | some i => insertIndexKey i k v o
    | none => o ++ [(k, v)]

/-- The keys `Object.keys` gives for an object literal whose keys are written
in the order of `ks`: array-index keys first, ascending, then the other keys as written. -/
def objectKeys (ks : List String) : List String :=
  (ks.foldl (fun o k => setProp o k JsVal.undefined) []).map Prod.fst

/-! ## `JSON.stringify(value, null, 2)` -/

/-- Lower-case hexadecimal digit. -/
def hexDigit (n : Nat) : Char :=
  if n < 10 then Char.ofNat (48 + n) else Char.ofNat (87 + n)

/-- The JSON escape of one character of a string. -/
def quoteChar (c : Char) : String :=
  if c = '"' then "\\\""
  else if c = '\\' then "\\\\"
  else if c.toNat = 8 then "\\b"
  else if c.toNat = 9 then "\\t"
  else if c.toNat = 10 then "\\n"
  else if c.toNat = 12 then "\\f"
  else if c.toNat = 13 then "\\r"
  else if c.toNat < 32 then
    "\\u00" ++ String.mk [hexDigit (c.toNat / 16), hexDigit (c.toNat % 16)]
  else String.singleton c

/-- A string as a JSON string literal. -/
def quote (s : String) : String :=
  "\"" ++ String.join (s.toList.map quoteChar) ++ "\""

mutual
/-- Serialisation of a value at the indentation `ind`, with a gap of two
spaces; `none` is the JavaScript `undefined` that `JSON.stringify` returns
for `undefined`. -/
def stringifyAt : JsVal → String → Option String
  | .undefined, _ => none
  | .null, _ => some "null"
  | .bool b, _ => some (if b then "true" else "false")
  | .num n, _ => some (toString n)
  | .nan, _ => some "null"
  | .str s, _ => some (quote s)
  | .arr items, ind =>
    match stringifyItems items (ind ++ "  ") with
    | [] => some "[]"
    | parts =>
      some ("[\n" ++ ind ++ "  " ++ String.intercalate (",\n" ++ ind ++ "  ") parts
        ++ "\n" ++ ind ++ "]")
  | .obj props, ind =>
    match stringifyProps props (ind ++ "  ") with
    | [] => some "\x7b\x7d"
    | parts =>
      some ("\x7b\n" ++ ind ++ "  " ++ String.intercalate (",\n" ++ ind ++ "  ") parts
        ++ "\n" ++ ind ++ "\x7d")
/-- The items of an array, `undefined` serialised as `null`. -/
def stringifyItems : List JsVal → String → List String
  | [], _ => []
  | v :: vs, ind => (stringifyAt v ind).getD "null" :: stringifyItems vs ind
/-- The members of an object, those whose value is `undefined` left out. -/
def stringifyProps : List (String × JsVal) → String → List String
  | [], _ => []
  | (k, v) :: ps, ind =>
    match stringifyAt v ind with
    | none => stringifyProps ps ind
    | some s => (quote k ++ ": " ++ s) :: stringifyProps ps ind
end

/-- The call `JSON.stringify(v, null, 2)`. -/
def stringify (v : JsVal) : Option String := stringifyAt v ""

/-! ## `parseInt` -/

/-- White space and line terminators skipped by `parseInt`. -/
def isJsWhitespace (c : Char) : Bool :=
  let n := c.toNat
  n == 9 || n == 10 || n == 11 || n == 12 || n == 13 || n == 32 || n == 160
    || n == 5760 || (8192 ≤ n && n ≤ 8202) || n == 8232 || n == 8233 || n == 8239
    || n == 8287 || n == 12288 || n == 65279

/-- Value of a digit in the given radix (10 or 16), if it is one. -/
def digitValue? (radix : Nat) (c : Char) : Option Nat :=
  let n := c.toNat
  if 48 ≤ n && n ≤ 57 then some (n - 48)
  else if radix == 16 && 97 ≤ n && n ≤ 102 then some (n - 87)
  else if radix == 16 && 65 ≤ n && n ≤ 70 then some (n - 55)
  else none

/-- The longest run of digits at the head of the characters. -/
def leadingDigits (radix : Nat) : List Char → List Nat
  | [] => []
  | c :: cs =>
    match digitValue? radix c with
    | some d => d :: leadingDigits radix cs
    | none => []

/-- The call `parseInt(s)` with no radix: leading white space, a sign, an
optional `0x`, then digits up to the first character that is none; `NaN`
when no digit is found. -/
def parseInt (s : String) : JsVal :=
  let cs := s.toList.dropWhile isJsWhitespace
  let signed : Bool × List Char :=
    match cs with
    | '-' :: r => (true, r)
    | '+' :: r => (false, r)
    | r => (false, r)
  let based : Nat × List Char :=
    match signed.2 with
    | '0' :: 'x' :: r => (16, r)
    | '0' :: 'X' :: r => (16, r)
    | r => (10, r)
  match leadingDigits based.1 based.2 with
  | [] => .nan
  | ds =>
    let n : Int := (ds.foldl (fun acc d => based.1 * acc + d) 0 : Nat)
    .num (if signed.1 then -n else n)

/-! ## The world the script runs in -/

/-- A path: its segments below the repository root. -/
abbrev Path := List String

/-- The file system: the text of every file and the set of directories. -/
structure FS where
  files : Path → Option String
  dirs : Path → Bool

/-- The state a run acts on: the file system and the readings the wall
clock will give, in order. -/
structure World where
  fs : FS
  clock : Nat → String

/-- How a computation ends: with a value, with a raised error, or with
`process.exit(code)`. -/
inductive Outcome (α : Type) where
  | ok (a : α)
  | throw (e : JsError)
  | exit (code : Nat)

/-- A computation of the script: it ends in an outcome and leaves a world.
What was written before an error stays written. -/
def Script (α : Type) : Type := World → Outcome α × World

/-- Sequencing: the second computation runs only if the first returns. -/
def Script.bind {α β : Type} (m : Script α) (f : α → Script β) : Script β :=
  fun w =>
    match m w with
    | (.ok a, w') => f a w'
    | (.throw e, w') => (.throw e, w')
    | (.exit c, w') => (.exit c, w')

instance : Monad Script where
  pure a := fun w => (.ok a, w)
  bind := Script.bind

/-- A pure step that may raise. -/
def liftExcept {α : Type} : Except JsError α → Script α
  | .ok a => fun w => (.ok a, w)
  | .error e => fun w => (.throw e, w)

/-- The call `fs.existsSync(p)`: a file or a directory is there. -/
def existsSync (p : Path) : Script Bool :=
  fun w => (.ok ((w.fs.files p).isSome || w.fs.dirs p), w)

/-- The call `fs.readFileSync(p, 'utf8')`. -/
def readFileSync (p : Path) : Script String :=
  fun w =>
    match w.fs.files p with
    | some text => (.ok text, w)
    | none => (.throw .ioError, w)

/-- The call `fs.writeFileSync(p, data)`: the file is created or replaced
whole; data that is `undefined` is refused with a `TypeError`. -/
def writeFileSync (p : Path) (data : Option String) : Script Unit :=
  fun w =>
    match data with
    | some text =>
      (.ok (), { w with fs := { w.fs with
        files := fun q => if q = p then some text else w.fs.files q } })
    | none => (.throw .typeError, w)

/-- The call `fs.mkdirSync(p, (recursive: true))`: `p` and the directories
above it exist afterwards. -/
def mkdirSync (p : Path) : Script Unit :=
  fun w =>
    (.ok (), { w with fs := { w.fs with
      dirs := fun q => (!q.isEmpty && q.isPrefixOf p) || w.fs.dirs q } })

/-- The call `new Date().toISOString()`: the next reading of the clock. -/
def nowISOString : Script String :=
  fun w => (.ok (w.clock 0), { w with clock := fun n => w.clock (n + 1) })

/-- The call `process.exit(code)`. -/
def processExit {α : Type} (code : Nat) : Script α :=
  fun w => (.exit code, w)

/-- The call `JSON.parse(text)` with the runtime's parser `parse`. -/
def jsonParse (parse : String → Option JsVal) (text : String) : Script JsVal :=
  fun w =>
    match parse text with
    | some v => (.ok v, w)
    | none => (.throw .parseError, w)

/-! ## Configuration -/

/-- A chain descriptor: a value of `CHAINS`. -/
structure ChainDescriptor where
  chainId : Int
  chainName : String
  explorer : String

/-- The object literal `CHAINS`, its members in the order written. -/
def CHAINS : List (String × ChainDescriptor) :=
  [ ("84532", ⟨84532, "Base Sepolia", "https://base-sepolia.blockscout.com"⟩),
    ("8453", ⟨8453, "Base Mainnet", "https://base.blockscout.com"⟩) ]

/-- The names every plain object inherits from `Object.prototype`. -/
def objectPrototypeMembers : List String :=
  [ "constructor", "__defineGetter__", "__defineSetter__", "hasOwnProperty",
    "__lookupGetter__", "__lookupSetter__", "isPrototypeOf", "propertyIsEnumerable",
    "toString", "valueOf", "__proto__", "toLocaleString" ]

/-- What the lookup `CHAINS[key]` finds. -/
inductive ChainsMember where
  | descriptor (d : ChainDescriptor)
  | inherited
  | undefined

/-- The lookup `CHAINS[key]`: an own member, else a member inherited from
`Object.prototype` (a function or the prototype itself), else `undefined`. -/
def chainsGet (key : String) : ChainsMember :=
  match CHAINS.lookup key with
  | some d => .descriptor d
  | none => if objectPrototypeMembers.contains key then .inherited else .undefined

/-- Truthiness of `CHAINS[key]`: only `undefined` is falsy. -/
def ChainsMember.isTruthy : ChainsMember → Bool
  | .undefined => false
  | _ => true

/-- The array `CONTRACTS`. -/
def CONTRACTS : List String := ["CourseFactory", "CourseNFT"]

/-- The directory `BROADCAST_DIR`. -/
def BROADCAST_DIR : Path := ["broadcast"]

/-- The directory `OUT_DIR`. -/
def OUT_DIR : Path := ["out"]

/-- The directory `DEPLOY_DIR`. -/
def DEPLOY_DIR : Path := ["deployments"]

/-- The directory `ABI_DIR`. -/
def ABI_DIR : Path := DEPLOY_DIR ++ ["abi"]

/-- The `artifactPath` of `extractABI`. -/
def artifactPath (contractName : String) : Path :=
  OUT_DIR ++ [contractName ++ ".sol", contractName ++ ".json"]

/-- The `outputPath` of `extractAllABIs`. -/
def abiOutputPath (contractName : String) : Path :=
  ABI_DIR ++ [contractName ++ ".json"]

/-- The `broadcastPath` of `extractAddressesForChain`. -/
def broadcastPath (chainId : String) : Path :=
  BROADCAST_DIR ++ ["Counter.s.sol", chainId, "run-latest.json"]

/-- The `outputPath` of `extractAllAddresses` and of `main`. -/
def addressesPath : Path := DEPLOY_DIR ++ ["addresses.json"]

/-! ## The script -/

/-- The function `ensureDirectories`. -/
def ensureDirectories : Script Unit := do
  if !(← existsSync DEPLOY_DIR) then
    mkdirSync DEPLOY_DIR
  if !(← existsSync ABI_DIR) then
    mkdirSync ABI_DIR

/-- The function `extractABI`: `null` when the artifact is not there, else
the `abi` property of the parsed artifact. -/
def extractABI (parse : String → Option JsVal) (contractName : String) : Script JsVal := do
  if !(← existsSync (artifactPath contractName)) then
    pure JsVal.null
  else
    let artifact ← jsonParse parse (← readFileSync (artifactPath contractName))
    liftExcept (artifact.getProp "abi")

/-- The body of the loop of `extractAllABIs` for one contract name. -/
def extractAllABIs.body (parse : String → Option JsVal) (contractName : String) :
    Script Unit := do
  let abi ← extractABI parse contractName
  if abi.isTruthy then
    writeFileSync (abiOutputPath contractName) (stringify abi)

/-- A `for (const x of xs)` loop over a fixed list. -/
def forEach {α : Type} (body : α → Script Unit) : List α → Script Unit
  | [] => pure ()
  | x :: xs => do
    body x
    forEach body xs

/-- The function `extractAllABIs`. -/
def extractAllABIs (parse : String → Option JsVal) : Script Unit :=
  forEach (extractAllABIs.body parse) CONTRACTS

/-- One turn of the loop over the transactions in
`extractAddressesForChain`, on the `contracts` object built so far. -/
def collectStep (contracts : List (String × JsVal)) (tx : JsVal) :
    Except JsError (List (String × JsVal)) := do
  let transactionType ← tx.getProp "transactionType"
  if transactionType.strictEqStr "CREATE" then
    let contractName ← tx.getProp "contractName"
    let contractAddress ← tx.getProp "contractAddress"
    match contractName with
    | .str name =>
      if CONTRACTS.contains name then pure (setProp contracts name contractAddress)
      else pure contracts
    | _ => pure contracts
  else
    pure contracts

/-- The loop over the transactions in `extractAddressesForChain`, from the
`contracts` object built so far. -/
def collectFrom : List (String × JsVal) → List JsVal → Except JsError (List (String × JsVal))
  | contracts, [] => pure contracts
  | contracts, tx :: txs => do
    let next ← collectStep contracts tx
    collectFrom next txs

/-- The `contracts` object `extractAddressesForChain` builds from the parsed
broadcast file. -/
def collectContracts (broadcast : JsVal) : Except JsError (List (String × JsVal)) := do
  let transactions ← broadcast.getProp "transactions"
  let txs ← transactions.iterate
  collectFrom [] txs

/-- The record `extractAddressesForChain` returns. -/
structure DeploymentRecord where
  chainId : JsVal
  chainName : JsVal
  explorer : JsVal
  timestamp : String
  contracts : List (String × JsVal)

/-- The record as the object literal it is. -/
def DeploymentRecord.toJs (r : DeploymentRecord) : JsVal :=
  .obj [ ("chainId", r.chainId), ("chainName", r.chainName), ("explorer", r.explorer),
         ("timestamp", .str r.timestamp), ("contracts", .obj r.contracts) ]

/-- The reads `CHAINS[chainId].chainName` and `CHAINS[chainId].explorer`:
an inherited member has neither property, `undefined` has no properties. -/
def chainsField (chainId : String) (field : ChainDescriptor → String) : Except JsError JsVal :=
  match chainsGet chainId with
  | .descriptor d => .ok (.str (field d))
  | .inherited => .ok .undefined
  | .undefined => .error .typeError

/-- The function `extractAddressesForChain`; `none` is its `null`. -/
def extractAddressesForChain (parse : String → Option JsVal) (chainId : String) :
    Script (Option DeploymentRecord) := do
  if !(← existsSync (broadcastPath chainId)) then
    pure none
  else
    let broadcast ← jsonParse parse (← readFileSync (broadcastPath chainId))
    let contracts ← liftExcept (collectContracts broadcast)
    if contracts.length == 0 then
      pure none
    else
      let chainName ← liftExcept (chainsField chainId ChainDescriptor.chainName)
      let explorer ← liftExcept (chainsField chainId ChainDescriptor.explorer)
      let timestamp ← nowISOString
      pure (some
        { chainId := parseInt chainId, chainName := chainName, explorer := explorer,
          timestamp := timestamp, contracts := contracts })

/-- The loop of `extractAllAddresses` over the chain identifiers, on the
`addresses` object built so far. -/
def collectAddresses (parse : String → Option JsVal) :
    List (String × JsVal) → List String → Script (List (String × JsVal))
  | addresses, [] => pure addresses
  | addresses, chainId :: rest => do
    let deployment ← extractAddressesForChain parse chainId
    match deployment with
    | some r => collectAddresses parse (setProp addresses chainId r.toJs) rest
    | none => collectAddresses parse addresses rest

/-- The function `extractAllAddresses`. -/
def extractAllAddresses (parse : String → Option JsVal) : Script Unit := do
  let addresses ← collectAddresses parse [] (objectKeys (CHAINS.map Prod.fst))
  if addresses.length > 0 then
    writeFileSync addressesPath (stringify (.obj addresses))

/-- The function `main`, on `process.argv[2]` (`none` when not given). -/
def main (parse : String → Option JsVal) (arg : Option String) : Script Unit := do
  ensureDirectories
  match arg with
  | none =>
    extractAllABIs parse
    extractAllAddresses parse
  | some a =>
    if a == "" || a == "all" then
      extractAllABIs parse
      extractAllAddresses parse
    else if a == "abi" then
      extractAllABIs parse
    else if (chainsGet a).isTruthy then
      extractAllABIs parse
      let deployment ← extractAddressesForChain parse a
      match deployment with
      | some r => writeFileSync addressesPath (stringify (.obj (setProp [] a r.toJs)))
      | none => pure ()
    else
      processExit 1

/-- The exit status of the process and the world it leaves: 0 when `main`
returns, 1 when an error is raised and not caught, else the status given to
`process.exit`. -/
def run (parse : String → Option JsVal) (arg : Option String) (w : World) : Nat × World :=
  match main parse arg w with
  | (.ok _, w') => (0, w')
  | (.throw _, w') => (1, w')
  | (.exit code, w') => (code, w')


/-! ## Vocabulary of the specification -/

/-- The entry is a transaction of type `CREATE` whose contract name is `name`. -/
def isCreateOf (name : String) (tx : JsVal) : Bool :=
  match tx.getProp "transactionType", tx.getProp "contractName" with
  | .ok t, .ok m => t.strictEqStr "CREATE" && m.strictEqStr name
  | _, _ => false

/-- The `contractAddress` of an entry. -/
def addressOf (tx : JsVal) : JsVal :=
  match tx.getProp "contractAddress" with
  | .ok a => a
  | .error _ => .undefined

/-- The entry is a `CREATE` of a contract named in `CONTRACTS`. -/
def isKnownCreate (tx : JsVal) : Bool :=
  CONTRACTS.any fun name => isCreateOf name tx

/-- Whether a file or a directory is at the path. -/
def pathExists (w : World) (p : Path) : Bool :=
  (w.fs.files p).isSome || w.fs.dirs p

/-- The world once the directory `p` is there: created, with the
directories above it, unless something is at `p` already. -/
def ensureDir (w : World) (p : Path) : World :=
  if pathExists w p then w else (mkdirSync p w).2

/-- Same inputs: the two worlds agree on the clock and on every path
outside the output tree `deployments`. -/
def SameInputs (w₁ w₂ : World) : Prop :=
  w₁.clock = w₂.clock ∧
    ∀ p : Path, p.head? ≠ some "deployments" →
      w₁.fs.files p = w₂.fs.files p ∧ w₁.fs.dirs p = w₂.fs.dirs p

/-- The world with the text `text` in the file at `p`. -/
def writeFile (w : World) (p : Path) (text : String) : World :=
  { w with fs := { w.fs with files := fun q => if q = p then some text else w.fs.files q } }

/-- What one turn of the loop of `extractAllABIs` does, as a function of the
artifact file it finds (`file`, and `isDir` when a directory is in its
place): it raises, or writes nothing (`none`), or writes the given text. -/
def abiDecision (parse : String → Option JsVal) (file : Option String) (isDir : Bool) :
    Except JsError (Option String) :=
  match file with
  | none => if isDir then .error .ioError else .ok none
  | some text =>
    match parse text with
    | none => .error .parseError
    | some artifact =>
      match artifact.getProp "abi" with
      | .error e => .error e
      | .ok abi =>
        if abi.isTruthy then
          match stringify abi with
          | some s => .ok (some s)
          | none => .error .typeError
        else .ok none

/-- The registry `extractAllAddresses` accumulates from the result of each
chain, in order: the chains with a record, each with its record. -/
def registryEntries (results : List (String × Option DeploymentRecord)) :
    List (String × JsVal) :=
  results.filterMap fun kr => kr.2.map fun r => (kr.1, r.toJs)

/-- White space between the tokens of a JSON text. -/
def isJsonWhitespace (c : Char) : Bool :=
  c == ' ' || c == '\n' || c == '\r' || c == '\t'

/-- The text without its leading white space. -/
def skipWhitespace : List Char → List Char
  | [] => []
  | c :: cs => if isJsonWhitespace c then skipWhitespace cs else c :: cs

/-- What follows the given characters, if the text starts with them. -/
def expectLiteral : List Char → List Char → Option (List Char)
  | [], cs => some cs
  | _ :: _, [] => none
  | p :: ps, c :: cs => if p = c then expectLiteral ps cs else none

/-- The character a one-letter escape stands for. -/
def unescape? (e : Char) : Option Char :=
  if e = '"' then some '"'
  else if e = '\\' then some '\\'
  else if e = '/' then some '/'
  else if e = 'b' then some (Char.ofNat 8)
  else if e = 'f' then some (Char.ofNat 12)
  else if e = 'n' then some '\n'
  else if e = 'r' then some '\r'
  else if e = 't' then some '\t'
  else none

/-- Four hexadecimal digits and what follows them. -/
def parseHex4 : List Char → Option (Nat × List Char)
  | a :: b :: c :: d :: rest =>
    match digitValue? 16 a, digitValue? 16 b, digitValue? 16 c, digitValue? 16 d with
    | some x, some y, some z, some u => some (((x * 16 + y) * 16 + z) * 16 + u, rest)
    | _, _, _, _ => none
  | _ => none

/-- The character of a `\u` escape whose four digits gave `code`, and what
follows it: a code unit outside the surrogate range stands for itself, a
high surrogate needs the escape of a low surrogate after it. A lone
surrogate is no character of the model. -/
def parseEscapedUnit (code : Nat) (rest : List Char) : Option (Char × List Char) :=
  if code < 55296 || 57343 < code then some (Char.ofNat code, rest)
  else if code ≤ 56319 then
    match expectLiteral ['\\', 'u'] rest with
    | some rest' =>
      match parseHex4 rest' with
      | some (low, rest'') =>
        if 56320 ≤ low && low ≤ 57343 then
          some (Char.ofNat (65536 + (code - 55296) * 1024 + (low - 56320)), rest'')
        else none
      | none => none
    | none => none
  else none

/-- The characters of a string literal after its opening quote, up to the
closing quote, and what follows it. -/
def parseStringBody : Nat → List Char → Option (List Char × List Char)
  | 0, _ => none
  | _ + 1, [] => none
  | fuel + 1, c :: rest =>
    if c = '"' then some ([], rest)
    else if c = '\\' then
      match rest with
      | [] => none
      | e :: rest' =>
        if e = 'u' then
          match parseHex4 rest' with
          | some (code, rest'') =>
            match parseEscapedUnit code rest'' with
            | some (ch, rest''') =>
              (parseStringBody fuel rest''').map fun r => (ch :: r.1, r.2)
            | none => none
          | none => none
        else
          match unescape? e with
          | some ch => (parseStringBody fuel rest').map fun r => (ch :: r.1, r.2)
          | none => none
    else if c.toNat < 32 then none
    else (parseStringBody fuel rest).map fun r => (c :: r.1, r.2)

/-- The number the decimal digits denote. -/
def digitsValue (ds : List Char) : Nat :=
  ds.foldl (fun acc c => 10 * acc + (c.toNat - 48)) 0

/-- A number literal and what follows it. The model carries the integers:
a literal with a fraction or an exponent has no value here. -/
def parseNumber (cs : List Char) : Option (JsVal × List Char) :=
  let negative := cs.head? == some '-'
  let body := if negative then cs.tail else cs
  let ds := body.takeWhile Char.isDigit
  let rest := body.dropWhile Char.isDigit
  if ds.isEmpty then none
  else if ds.length > 1 && ds.head? == some '0' then none
  else if rest.head? == some '.' || rest.head? == some 'e' || rest.head? == some 'E' then none
  else some (.num (if negative then -(digitsValue ds : Int) else (digitsValue ds : Int)), rest)

/-- The object `JSON.parse` builds from the members of an object literal,
in the order written: a repeated key keeps its place and takes the later
value, index keys come first. -/
def buildObject (members : List (String × JsVal)) : List (String × JsVal) :=
  members.foldl (fun o m => setProp o m.1 m.2) []

mutual
/-- A JSON value and what follows it. -/
def parseValue : Nat → List Char → Option (JsVal × List Char)
  | 0, _ => none
  | fuel + 1, cs =>
    match skipWhitespace cs with
    | [] => none
    | c :: rest =>
      if c = '"' then
        (parseStringBody (fuel + 1) rest).map fun r => (JsVal.str (String.mk r.1), r.2)
      else if c = '[' then
        if (skipWhitespace rest).head? = some ']' then
          some (.arr [], (skipWhitespace rest).tail)
        else (parseElems fuel rest).map fun r => (JsVal.arr r.1, r.2)
      else if c = '\x7b' then
        if (skipWhitespace rest).head? = some '\x7d' then
          some (.obj [], (skipWhitespace rest).tail)
        else (parseMembers fuel rest).map fun r => (JsVal.obj (buildObject r.1), r.2)
      else if c = 'n' then
        (expectLiteral ['u', 'l', 'l'] rest).map fun r => (JsVal.null, r)
      else if c = 't' then
        (expectLiteral ['r', 'u', 'e'] rest).map fun r => (JsVal.bool true, r)
      else if c = 'f' then
        (expectLiteral ['a', 'l', 's', 'e'] rest).map fun r => (JsVal.bool false, r)
      else parseNumber (c :: rest)
/-- The elements of an array after its opening bracket, up to the closing
bracket, and what follows it. -/
def parseElems : Nat → List Char → Option (List JsVal × List Char)
  | 0, _ => none
  | fuel + 1, cs =>
    match parseValue fuel cs with
    | none => none
    | some (v, rest) =>
      match skipWhitespace rest with
      | [] => none
      | c :: rest' =>
        if c = ',' then (parseElems fuel rest').map fun r => (v :: r.1, r.2)
        else if c = ']' then some ([v], rest')
        else none
/-- The members of an object after its opening brace, up to the closing
brace, and what follows it. -/
def parseMembers : Nat → List Char → Option (List (String × JsVal) × List Char)
  | 0, _ => none
  | fuel + 1, cs =>
    match skipWhitespace cs with
    | [] => none
    | q :: rest =>
      if q = '"' then
        match parseStringBody (fuel + 1) rest with
        | none => none
        | some (key, rest₁) =>
          match skipWhitespace rest₁ with
          | [] => none
          | colon :: rest₂ =>
            if colon = ':' then
              match parseValue fuel rest₂ with
              | none => none
              | some (v, rest₃) =>
                match skipWhitespace rest₃ with
                | [] => none
                | c :: rest₄ =>
                  if c = ',' then
                    (parseMembers fuel rest₄).map fun r => ((String.mk key, v) :: r.1, r.2)
                  else if c = '\x7d' then some ([(String.mk key, v)], rest₄)
                  else none
            else none
      else none
end

/-- The enumeration order of two own keys: an index key comes before a key
that is none, index keys go by their number. -/
def keyLe (k k' : String) : Prop :=
  match arrayIndex? k, arrayIndex? k' with
  | some i, some j => i ≤ j
  | none, some _ => False
  | _, none => True

/-- The property list of an object as the runtime holds it: every key once,
in enumeration order. -/
def OrderedKeys (props : List (String × JsVal)) : Prop :=
  (props.map Prod.fst).Nodup ∧ (props.map Prod.fst).Pairwise keyLe

mutual
/-- The values `JSON.parse` can return: neither `undefined` nor `NaN` at any
depth, and every object with its keys in enumeration order. -/
def IsJson : JsVal → Prop
  | .undefined => False
  | .nan => False
  | .null => True
  | .bool _ => True
  | .num _ => True
  | .str _ => True
  | .arr items => AllJson items
  | .obj props => AllJsonProps props ∧ OrderedKeys props
/-- Every item is a JSON value. -/
def AllJson : List JsVal → Prop
  | [] => True
  | v :: vs => IsJson v ∧ AllJson vs
/-- Every member holds a JSON value. -/
def AllJsonProps : List (String × JsVal) → Prop
  | [] => True
  | (_, v) :: ps => IsJson v ∧ AllJsonProps ps
end

/-- Whether the text after a value is at its end, at a comma or at a line break. -/
def startsField : List Char → Bool
  | [] => true
  | c :: _ => c == ',' || c == '\n'

/-- The characters between the quotes of the string literal `quote` writes. -/
def quotedBody (cs : List Char) : List Char :=
  ((cs.map quoteChar).map String.data).flatten

/-- The parts with the separator between them, as `String.intercalate`
joins them. -/
def joinLines (sep : List Char) : List (List Char) → List Char
  | [] => []
  | [a] => a
  | a :: b :: rest => a ++ sep ++ joinLines sep (b :: rest)

/-! ## Sample inputs -/

/-- A world holding the given files and no directory; the clock reads the
same instant throughout. -/
def sampleWorld (files : List (Path × String)) : World :=
  { fs := { files := fun p => files.lookup p, dirs := fun _ => false },
    clock := fun _ => "2024-05-01T12:00:00.000Z" }

/-- The sample world with the clock reading `now` throughout. -/
def sampleWorldAt (files : List (Path × String)) (now : String) : World :=
  { fs := { files := fun p => files.lookup p, dirs := fun _ => false },
    clock := fun _ => now }

/-- Text of a broadcast file: `CourseFactory` is created, then `CourseNFT`
through `CREATE2`, then a contract outside `CONTRACTS`, then `CourseFactory`
once more at another address. -/
def redeployLogText : String :=
  "\x7b\"transactions\":[" ++
  "\x7b\"transactionType\":\"CREATE\",\"contractName\":\"CourseFactory\",\"contractAddress\":\"0x01\"\x7d," ++
  "\x7b\"transactionType\":\"CREATE2\",\"contractName\":\"CourseNFT\",\"contractAddress\":\"0x02\"\x7d," ++
  "\x7b\"transactionType\":\"CREATE\",\"contractName\":\"Counter\",\"contractAddress\":\"0x03\"\x7d," ++
  "\x7b\"transactionType\":\"CREATE\",\"contractName\":\"CourseFactory\",\"contractAddress\":\"0x04\"\x7d]\x7d"

/-- A transaction entry with the three properties the script reads. -/
def sampleTx (transactionType contractName contractAddress : String) : JsVal :=
  .obj [ ("transactionType", .str transactionType), ("contractName", .str contractName),
         ("contractAddress", .str contractAddress) ]

/-- The value of `redeployLogText`. -/
def redeployLog : JsVal :=
  .obj [("transactions", .arr
    [ sampleTx "CREATE" "CourseFactory" "0x01", sampleTx "CREATE2" "CourseNFT" "0x02",
      sampleTx "CREATE" "Counter" "0x03", sampleTx "CREATE" "CourseFactory" "0x04" ])]

/-- Text of a broadcast file that holds one call and no creation. -/
def callLogText : String :=
  "\x7b\"transactions\":[" ++
  "\x7b\"transactionType\":\"CALL\",\"contractName\":\"CourseFactory\",\"contractAddress\":\"0x01\"\x7d]\x7d"

/-- The value of `callLogText`. -/
def callLog : JsVal :=
  .obj [("transactions", .arr [sampleTx "CALL" "CourseFactory" "0x01"])]

/-- Text that is no JSON: an opening brace and nothing more. -/
def brokenText : String := "\x7b"

/-- Text of a compiled artifact whose interface is one constructor. -/
def artifactText : String :=
  "\x7b\"abi\":[\x7b\"type\":\"constructor\",\"inputs\":[]\x7d],\"bytecode\":\"0x\"\x7d"

/-- The value of `artifactText`. -/
def artifactValue : JsVal :=
  .obj [ ("abi", .arr [.obj [("type", .str "constructor"), ("inputs", .arr [])]]),
         ("bytecode", .str "0x") ]

/-- Text of an artifact whose `abi` is `null`. -/
def nullAbiText : String := "\x7b\"abi\":null\x7d"

/-- The value of `nullAbiText`. -/
def nullAbiValue : JsVal := .obj [("abi", .null)]

/-- The parser `JSON.parse` on the sample texts; every other text is taken
as malformed, as `brokenText` is. -/
def sampleParse (text : String) : Option JsVal :=
  if text = redeployLogText then some redeployLog
  else if text = callLogText then some callLog
  else if text = artifactText then some artifactValue
  else if text = nullAbiText then some nullAbiValue
  else none

/-! ## Lemmas -/

theorem lookup_cons_ite {β : Type} (a k : String) (v : β) (es : List (String × β)) :
    List.lookup a ((k, v) :: es) = if a = k then some v else List.lookup a es := by
  by_cases h : a = k
  · subst h; simp [List.lookup]
  · have hb : (a == k) = false := by simpa using h
    simp [List.lookup, hb, h]

theorem lookup_nil_none (a : String) : List.lookup a ([] : List (String × JsVal)) = none := rfl

theorem lookup_insertIndexKey_self (i : Nat) (k : String) (v : JsVal)
    (o : List (String × JsVal)) (h : ∀ p ∈ o, p.1 ≠ k) :
    (insertIndexKey i k v o).lookup k = some v := by
  induction o with
  | nil => simp [insertIndexKey, lookup_cons_ite, lookup_nil_none]
  | cons p rest ih =>
    obtain ⟨k', v'⟩ := p
    have hk : k ≠ k' := fun e => h (k', v') (by simp) e.symm
    have hrest : ∀ p ∈ rest, p.1 ≠ k := fun p hp => h p (by simp [hp])
    simp only [insertIndexKey]
    cases arrayIndex? k' with
    | none => simp [lookup_cons_ite, lookup_nil_none]
    | some j =>
      by_cases hij : i < j
      · simp [hij, lookup_cons_ite, lookup_nil_none]
      · simp [hij, lookup_cons_ite, lookup_nil_none, hk, ih hrest]

theorem lookup_insertIndexKey_ne (i : Nat) (k k' : String) (v : JsVal)
    (o : List (String × JsVal)) (h : k' ≠ k) :
    (insertIndexKey i k v o).lookup k' = o.lookup k' := by
  induction o with
  | nil => simp [insertIndexKey, lookup_cons_ite, lookup_nil_none, h]
  | cons p rest ih =>
    obtain ⟨k₀, v₀⟩ := p
    simp only [insertIndexKey]
    cases arrayIndex? k₀ with
    | none => simp [lookup_cons_ite, lookup_nil_none, h]
    | some j =>
      by_cases hij : i < j
      · simp [hij, lookup_cons_ite, lookup_nil_none, h]
      · simp only [hij, if_false, lookup_cons_ite, lookup_nil_none, ih]

theorem mem_keys_insertIndexKey (i : Nat) (k k' : String) (v : JsVal)
    (o : List (String × JsVal)) :
    k' ∈ (insertIndexKey i k v o).map Prod.fst ↔ k' = k ∨ k' ∈ o.map Prod.fst := by
  induction o with
  | nil => simp [insertIndexKey]
  | cons p rest ih =>
    obtain ⟨k₀, v₀⟩ := p
    simp only [insertIndexKey]
    cases arrayIndex? k₀ with
    | none => simp
    | some j =>
      by_cases hij : i < j
      · simp [hij]
      · simp only [hij, if_false, List.map_cons, List.mem_cons, ih]
        tauto

theorem lookup_map_replace_self (k : String) (v : JsVal) (o : List (String × JsVal))
    (h : o.any (fun p => p.1 == k) = true) :
    (o.map (fun p => if p.1 == k then (k, v) else p)).lookup k = some v := by
  induction o with
  | nil => simp at h
  | cons p rest ih =>
    obtain ⟨k₀, v₀⟩ := p
    by_cases hk : k₀ = k
    · simp [hk, lookup_cons_ite]
    · have hk' : k ≠ k₀ := fun e => hk e.symm
      have hr : rest.any (fun p => p.1 == k) = true := by simpa [hk] using h
      have := ih hr
      simp only [List.map_cons, beq_iff_eq, hk, if_false, lookup_cons_ite, hk'] at this ⊢
      exact this

theorem lookup_map_replace_ne (k k' : String) (v : JsVal) (o : List (String × JsVal))
    (h : k' ≠ k) :
    (o.map (fun p => if p.1 == k then (k, v) else p)).lookup k' = o.lookup k' := by
  induction o with
  | nil => simp
  | cons p rest ih =>
    obtain ⟨k₀, v₀⟩ := p
    by_cases hk : k₀ = k
    · subst hk
      simp only [List.map_cons, beq_self_eq_true, if_true, lookup_cons_ite, h, if_false]
      exact ih
    · simp only [List.map_cons, beq_iff_eq, hk, if_false, lookup_cons_ite]
      rw [show (List.map (fun p => if p.1 = k then (k, v) else p) rest)
          = List.map (fun p => if p.1 == k then (k, v) else p) rest from by simp, ih]

theorem mem_keys_map_replace (k k' : String) (v : JsVal) (o : List (String × JsVal)) :
    k' ∈ (o.map (fun p => if p.1 == k then (k, v) else p)).map Prod.fst ↔
      k' ∈ o.map Prod.fst := by
  induction o with
  | nil => simp
  | cons p rest ih =>
    obtain ⟨k₀, v₀⟩ := p
    by_cases hk : k₀ = k
    · subst hk; simp only [List.map_cons, List.mem_cons, ih]; simp
    · simp only [List.map_cons, List.mem_cons, ih]; simp [hk]

theorem lookup_setProp_self (o : List (String × JsVal)) (k : String) (v : JsVal) :
    (setProp o k v).lookup k = some v := by
  unfold setProp
  by_cases h : o.any (fun p => p.1 == k) = true
  · simp only [h, if_true]; exact lookup_map_replace_self k v o h
  · simp only [h]
    have hno : ∀ p ∈ o, p.1 ≠ k := by
      intro p hp e
      exact h (List.any_eq_true.mpr ⟨p, hp, by simp [e]⟩)
    cases arrayIndex? k with
    | none =>
      simp only [Bool.false_eq_true, if_false]
      induction o with
      | nil => simp [lookup_cons_ite, lookup_nil_none]
      | cons p rest ih =>
        obtain ⟨k₀, v₀⟩ := p
        have hk : k ≠ k₀ := fun e => hno (k₀, v₀) (by simp) e.symm
        have h' : ¬ rest.any (fun p => p.1 == k) = true := by
          intro hr; apply h; simp only [List.any_cons, hr, Bool.or_true]
        simp [lookup_cons_ite, lookup_nil_none, hk]
        exact ih h' (fun p hp => hno p (by simp [hp]))
    | some i => simpa using lookup_insertIndexKey_self i k v o hno

theorem lookup_setProp_ne (o : List (String × JsVal)) (k k' : String) (v : JsVal)
    (h : k' ≠ k) : (setProp o k v).lookup k' = o.lookup k' := by
  unfold setProp
  by_cases ha : o.any (fun p => p.1 == k) = true
  · simp only [ha, if_true]; exact lookup_map_replace_ne k k' v o h
  · simp only [ha]
    cases arrayIndex? k with
    | none =>
      simp only [Bool.false_eq_true, if_false]
      induction o with
      | nil => simp [lookup_cons_ite, lookup_nil_none, h]
      | cons p rest ih =>
        obtain ⟨k₀, v₀⟩ := p
        have h' : ¬ rest.any (fun p => p.1 == k) = true := by
          intro hr; apply ha; simp only [List.any_cons, hr, Bool.or_true]
        simp only [List.cons_append, lookup_cons_ite, lookup_nil_none]
        rw [ih h']
    | some i => simpa using lookup_insertIndexKey_ne i k k' v o h

theorem mem_keys_setProp (o : List (String × JsVal)) (k k' : String) (v : JsVal) :
    k' ∈ (setProp o k v).map Prod.fst ↔ k' = k ∨ k' ∈ o.map Prod.fst := by
  unfold setProp
  by_cases ha : o.any (fun p => p.1 == k) = true
  · simp only [ha, if_true, mem_keys_map_replace]
    constructor
    · exact Or.inr
    · rintro (rfl | h)
      · obtain ⟨p, hp, hpk⟩ := List.any_eq_true.mp ha
        exact List.mem_map.mpr ⟨p, hp, by simpa using hpk⟩
      · exact h
  · simp only [ha]
    cases arrayIndex? k with
    | none => simp; tauto
    | some i => simpa using mem_keys_insertIndexKey i k k' v o


theorem strictEqStr_eq_true (v : JsVal) (s : String) :
    v.strictEqStr s = true ↔ v = .str s := by
  cases v <;> simp [JsVal.strictEqStr]

theorem collectStep_eq (acc : List (String × JsVal)) (tx : JsVal) :
    collectStep acc tx =
      match tx.getProp "transactionType" with
      | .error e => .error e
      | .ok _ =>
        if isKnownCreate tx then
          match tx.getProp "contractName" with
          | .ok (.str name) => .ok (setProp acc name (addressOf tx))
          | _ => .ok acc
        else .ok acc := by
  cases tx <;>
    simp [collectStep, JsVal.getProp, isKnownCreate, isCreateOf, addressOf, bind, Except.bind,
      pure, Except.pure, JsVal.strictEqStr, CONTRACTS]
  rename_i props
  cases h1 : (List.lookup "transactionType" props).getD JsVal.undefined <;>
    simp [JsVal.strictEqStr]
  rename_i t
  by_cases ht : t = "CREATE"
  · subst ht
    cases h2 : (List.lookup "contractName" props).getD JsVal.undefined <;>
      simp [JsVal.strictEqStr]
  · simp [ht]

theorem isCreateOf_iff (n : String) (tx : JsVal) :
    isCreateOf n tx = true ↔
      tx.getProp "transactionType" = .ok (.str "CREATE") ∧
        tx.getProp "contractName" = .ok (.str n) := by
  unfold isCreateOf
  cases h1 : tx.getProp "transactionType" <;> cases h2 : tx.getProp "contractName" <;>
    simp [strictEqStr_eq_true]

theorem isKnownCreate_iff (tx : JsVal) :
    isKnownCreate tx = true ↔ ∃ n, n ∈ CONTRACTS ∧ isCreateOf n tx = true := by
  simp [isKnownCreate, List.any_eq_true]

theorem collectStep_ok_cases (acc acc' : List (String × JsVal)) (tx : JsVal)
    (h : collectStep acc tx = .ok acc') :
    (isKnownCreate tx = false ∧ acc' = acc) ∨
      ∃ n, n ∈ CONTRACTS ∧ isCreateOf n tx = true ∧ (∀ m, isCreateOf m tx = true → m = n) ∧
        acc' = setProp acc n (addressOf tx) := by
  rw [collectStep_eq] at h
  cases h1 : tx.getProp "transactionType" with
  | error e => simp [h1] at h
  | ok t =>
    simp only [h1] at h
    by_cases hk : isKnownCreate tx = true
    · obtain ⟨n, hn, hc⟩ := (isKnownCreate_iff tx).mp hk
      have hc' := (isCreateOf_iff n tx).mp hc
      simp only [hk, if_true, hc'.2] at h
      refine Or.inr ⟨n, hn, hc, ?_, ?_⟩
      · intro m hm
        have hm' := (isCreateOf_iff m tx).mp hm
        rw [hc'.2] at hm'
        simpa using hm'.2.symm
      · exact (Except.ok.inj h).symm
    · simp only [hk] at h
      exact Or.inl ⟨by simpa using hk, (Except.ok.inj h).symm⟩

theorem collectStep_create (acc : List (String × JsVal)) (tx : JsVal) (n : String)
    (hn : n ∈ CONTRACTS) (h : isCreateOf n tx = true) :
    collectStep acc tx = .ok (setProp acc n (addressOf tx)) := by
  have hc := (isCreateOf_iff n tx).mp h
  have hk : isKnownCreate tx = true := (isKnownCreate_iff tx).mpr ⟨n, hn, h⟩
  rw [collectStep_eq, hc.1]
  simp only [hk, if_true, hc.2]

theorem collectStep_object (acc : List (String × JsVal)) (tx : JsVal)
    (h : tx.isObject = true) : ∃ acc', collectStep acc tx = .ok acc' := by
  cases tx <;> simp [JsVal.isObject] at h
  rw [collectStep_eq]
  simp only [JsVal.getProp]
  split <;> [skip; exact ⟨_, rfl⟩]
  split <;> exact ⟨_, rfl⟩

theorem collectFrom_cons (acc : List (String × JsVal)) (tx : JsVal) (txs : List JsVal) :
    collectFrom acc (tx :: txs) =
      match collectStep acc tx with
      | .ok next => collectFrom next txs
      | .error e => .error e := by
  simp only [collectFrom, bind, Except.bind]
  cases collectStep acc tx <;> rfl

theorem collectFrom_append_ok (acc m : List (String × JsVal)) (xs ys : List JsVal)
    (h : collectFrom acc (xs ++ ys) = .ok m) :
    ∃ mid, collectFrom acc xs = .ok mid ∧ collectFrom mid ys = .ok m := by
  induction xs generalizing acc with
  | nil => exact ⟨acc, rfl, h⟩
  | cons x xs ih =>
    rw [List.cons_append, collectFrom_cons] at h
    rw [collectFrom_cons]
    cases hs : collectStep acc x with
    | error e => simp [hs] at h
    | ok next =>
      simp only [hs] at h ⊢
      exact ih next h

theorem collectFrom_lookup_unchanged (n : String) (acc m : List (String × JsVal))
    (txs : List JsVal) (h : collectFrom acc txs = .ok m)
    (hno : ∀ t ∈ txs, isCreateOf n t = false) : m.lookup n = acc.lookup n := by
  induction txs generalizing acc with
  | nil => cases h; rfl
  | cons x xs ih =>
    rw [collectFrom_cons] at h
    cases hs : collectStep acc x with
    | error e => simp [hs] at h
    | ok next =>
      simp only [hs] at h
      rw [ih next h (fun t ht => hno t (by simp [ht]))]
      rcases collectStep_ok_cases acc next x hs with ⟨_, rfl⟩ | ⟨k, _, hk, _, rfl⟩
      · rfl
      · apply lookup_setProp_ne
        rintro rfl
        have := hno x (by simp)
        rw [hk] at this
        exact Bool.noConfusion this

theorem collectFrom_last (n : String) (m : List (String × JsVal)) (pre post : List JsVal)
    (tx : JsVal) (hn : n ∈ CONTRACTS) (h : collectFrom [] (pre ++ tx :: post) = .ok m)
    (htx : isCreateOf n tx = true) (hpost : ∀ t ∈ post, isCreateOf n t = false) :
    m.lookup n = some (addressOf tx) := by
  obtain ⟨mid, _, h2⟩ := collectFrom_append_ok [] m pre (tx :: post) h
  rw [collectFrom_cons, collectStep_create mid tx n hn htx] at h2
  rw [collectFrom_lookup_unchanged n _ m post h2 hpost, lookup_setProp_self]

theorem collectFrom_objects (acc : List (String × JsVal)) (txs : List JsVal)
    (h : ∀ t ∈ txs, t.isObject = true) : ∃ m, collectFrom acc txs = .ok m := by
  induction txs generalizing acc with
  | nil => exact ⟨acc, rfl⟩
  | cons x xs ih =>
    obtain ⟨next, hs⟩ := collectStep_object acc x (h x (by simp))
    rw [collectFrom_cons, hs]
    exact ih next (fun t ht => h t (by simp [ht]))

theorem collectFrom_keys (acc m : List (String × JsVal)) (txs : List JsVal)
    (h : collectFrom acc txs = .ok m) (k : String) :
    k ∈ m.map Prod.fst ↔
      k ∈ acc.map Prod.fst ∨ (k ∈ CONTRACTS ∧ ∃ t ∈ txs, isCreateOf k t = true) := by
  induction txs generalizing acc with
  | nil => cases h; simp
  | cons x xs ih =>
    rw [collectFrom_cons] at h
    cases hs : collectStep acc x with
    | error e => simp [hs] at h
    | ok next =>
      simp only [hs] at h
      rw [ih next h]
      rcases collectStep_ok_cases acc next x hs with ⟨hk, rfl⟩ | ⟨n, hn, hc, huniq, rfl⟩
      · have hx : ∀ k, k ∈ CONTRACTS → isCreateOf k x = false := by
          intro k hk'
          by_contra hne
          have : isKnownCreate x = true :=
            (isKnownCreate_iff x).mpr ⟨k, hk', by simpa using hne⟩
          rw [hk] at this
          exact Bool.noConfusion this
        constructor
        · rintro (h1 | ⟨h1, t, ht, h2⟩)
          · exact Or.inl h1
          · exact Or.inr ⟨h1, t, by simp [ht], h2⟩
        · rintro (h1 | ⟨h1, t, ht, h2⟩)
          · exact Or.inl h1
          · rcases List.mem_cons.mp ht with rfl | ht'
            · rw [hx k h1] at h2; exact Bool.noConfusion h2
            · exact Or.inr ⟨h1, t, ht', h2⟩
      · rw [mem_keys_setProp]
        constructor
        · rintro ((rfl | h1) | ⟨h1, t, ht, h2⟩)
          · exact Or.inr ⟨hn, x, by simp, hc⟩
          · exact Or.inl h1
          · exact Or.inr ⟨h1, t, by simp [ht], h2⟩
        · rintro (h1 | ⟨h1, t, ht, h2⟩)
          · exact Or.inl (Or.inr h1)
          · rcases List.mem_cons.mp ht with rfl | ht'
            · exact Or.inl (Or.inl (huniq k h2))
            · exact Or.inr ⟨h1, t, ht', h2⟩

theorem collectFrom_filter (acc m : List (String × JsVal)) (txs : List JsVal)
    (h : collectFrom acc txs = .ok m) :
    collectFrom acc (txs.filter isKnownCreate) = .ok m := by
  induction txs generalizing acc with
  | nil => exact h
  | cons x xs ih =>
    rw [collectFrom_cons] at h
    cases hs : collectStep acc x with
    | error e => simp [hs] at h
    | ok next =>
      simp only [hs] at h
      by_cases hk : isKnownCreate x = true
      · rw [List.filter_cons_of_pos hk, collectFrom_cons, hs]
        exact ih next h
      · rw [List.filter_cons_of_neg hk]
        rcases collectStep_ok_cases acc next x hs with ⟨_, rfl⟩ | ⟨n, hn, hc, _, _⟩
        · exact ih next h
        · exact absurd ((isKnownCreate_iff x).mpr ⟨n, hn, hc⟩) hk

@[simp] theorem Script.bind_apply {α β : Type} (m : Script α) (f : α → Script β) (w : World) :
    (m >>= f) w = match m w with
      | (.ok a, w') => f a w'
      | (.throw e, w') => (.throw e, w')
      | (.exit c, w') => (.exit c, w') := rfl

@[simp] theorem Script.pure_apply {α : Type} (a : α) (w : World) :
    (pure a : Script α) w = (.ok a, w) := rfl

@[simp] theorem liftExcept_ok {α : Type} (a : α) (w : World) :
    liftExcept (.ok a) w = (.ok a, w) := rfl

@[simp] theorem liftExcept_error {α : Type} (e : JsError) (w : World) :
    (liftExcept (.error e) : Script α) w = (.throw e, w) := rfl

theorem extractAddressesForChain_missing (parse : String → Option JsVal) (c : String)
    (w : World) (hf : w.fs.files (broadcastPath c) = none)
    (hd : w.fs.dirs (broadcastPath c) = false) :
    extractAddressesForChain parse c w = (.ok none, w) := by
  simp [extractAddressesForChain, existsSync, hf, hd]

theorem extractAddressesForChain_directory (parse : String → Option JsVal) (c : String)
    (w : World) (hf : w.fs.files (broadcastPath c) = none)
    (hd : w.fs.dirs (broadcastPath c) = true) :
    extractAddressesForChain parse c w = (.throw .ioError, w) := by
  simp [extractAddressesForChain, existsSync, readFileSync, hf, hd]

theorem extractAddressesForChain_malformed (parse : String → Option JsVal) (c : String)
    (w : World) (text : String) (hf : w.fs.files (broadcastPath c) = some text)
    (hp : parse text = none) :
    extractAddressesForChain parse c w = (.throw .parseError, w) := by
  simp [extractAddressesForChain, existsSync, readFileSync, jsonParse, hf, hp]

theorem extractAddressesForChain_log (parse : String → Option JsVal) (c : String) (w : World)
    (text : String) (b : JsVal)
    (hf : w.fs.files (broadcastPath c) = some text) (hp : parse text = some b) :
    extractAddressesForChain parse c w =
      match collectContracts b with
      | .error e => (.throw e, w)
      | .ok contracts =>
        if contracts.length == 0 then (.ok none, w)
        else match chainsField c ChainDescriptor.chainName,
                   chainsField c ChainDescriptor.explorer with
          | .ok chainName, .ok explorer =>
            (.ok (some { chainId := parseInt c, chainName := chainName, explorer := explorer,
                         timestamp := w.clock 0, contracts := contracts }),
             { w with clock := fun n => w.clock (n + 1) })
          | .error e, _ => (.throw e, w)
          | .ok _, .error e => (.throw e, w) := by
  cases hcol : collectContracts b with
  | error e => simp [extractAddressesForChain, existsSync, readFileSync, jsonParse, hf, hp, hcol]
  | ok contracts =>
    by_cases hlen : contracts.length = 0
    · simp [extractAddressesForChain, existsSync, readFileSync, jsonParse, hf, hp, hcol, hlen]
    · cases h1 : chainsField c ChainDescriptor.chainName <;>
        cases h2 : chainsField c ChainDescriptor.explorer <;>
        simp [extractAddressesForChain, existsSync, readFileSync, jsonParse, hf, hp, hcol, hlen,
          h1, h2, nowISOString]

theorem collectContracts_arr (b : JsVal) (txs : List JsVal)
    (h : b.getProp "transactions" = .ok (.arr txs)) :
    collectContracts b = collectFrom [] txs := by
  simp [collectContracts, h, JsVal.iterate, bind, Except.bind]

theorem chainsField_configured (c : String) (d : ChainDescriptor) (h : (c, d) ∈ CHAINS)
    (field : ChainDescriptor → String) : chainsField c field = .ok (.str (field d)) := by
  simp only [CHAINS, List.mem_cons, Prod.mk.injEq, List.mem_singleton, List.not_mem_nil,
    or_false] at h
  rcases h with ⟨rfl, rfl⟩ | ⟨rfl, rfl⟩ <;> rfl

theorem extractAddressesForChain_record (parse : String → Option JsVal) (c : String)
    (w : World) (text : String) (b : JsVal) (contracts : List (String × JsVal))
    (r : DeploymentRecord)
    (hf : w.fs.files (broadcastPath c) = some text) (hp : parse text = some b)
    (hcol : collectContracts b = .ok contracts)
    (hr : (extractAddressesForChain parse c w).1 = .ok (some r)) :
    r.contracts = contracts ∧ contracts ≠ [] ∧ r.chainId = parseInt c ∧
      r.timestamp = w.clock 0 := by
  rw [extractAddressesForChain_log parse c w text b hf hp, hcol] at hr
  by_cases hlen : contracts.length = 0
  · simp [hlen] at hr
  · have hne : contracts ≠ [] := fun e => hlen (by simp [e])
    simp only [beq_iff_eq, hlen, if_false] at hr
    cases h1 : chainsField c ChainDescriptor.chainName <;>
      cases h2 : chainsField c ChainDescriptor.explorer <;>
      simp only [h1, h2] at hr
    all_goals (cases hr <;> exact ⟨rfl, hne, rfl, rfl⟩)


theorem extractAddressesForChain_cases (parse : String → Option JsVal) (c : String)
    (w : World) :
    extractAddressesForChain parse c w = (.ok none, w) ∨
      (∃ e, extractAddressesForChain parse c w = (.throw e, w)) ∨
      ∃ text b contracts r, w.fs.files (broadcastPath c) = some text ∧ parse text = some b ∧
        collectContracts b = .ok contracts ∧ contracts ≠ [] ∧ r.contracts = contracts ∧
        r.chainId = parseInt c ∧ r.timestamp = w.clock 0 ∧
        chainsField c ChainDescriptor.chainName = .ok r.chainName ∧
        chainsField c ChainDescriptor.explorer = .ok r.explorer ∧
        extractAddressesForChain parse c w =
          (.ok (some r), { w with clock := fun n => w.clock (n + 1) }) := by
  cases hf : w.fs.files (broadcastPath c) with
  | none =>
    cases hd : w.fs.dirs (broadcastPath c) with
    | false => exact Or.inl (extractAddressesForChain_missing parse c w hf hd)
    | true => exact Or.inr (Or.inl ⟨_, extractAddressesForChain_directory parse c w hf hd⟩)
  | some text =>
    cases hp : parse text with
    | none => exact Or.inr (Or.inl ⟨_, extractAddressesForChain_malformed parse c w text hf hp⟩)
    | some b =>
      rw [extractAddressesForChain_log parse c w text b hf hp]
      cases hcol : collectContracts b with
      | error e => exact Or.inr (Or.inl ⟨e, rfl⟩)
      | ok contracts =>
        by_cases hlen : contracts.length = 0
        · simp [hlen]
        · have hne : contracts ≠ [] := fun e => hlen (by simp [e])
          simp only [beq_iff_eq, hlen, if_false]
          cases h1 : chainsField c ChainDescriptor.chainName with
          | error e => exact Or.inr (Or.inl ⟨e, rfl⟩)
          | ok chainName =>
            cases h2 : chainsField c ChainDescriptor.explorer with
            | error e => exact Or.inr (Or.inl ⟨e, rfl⟩)
            | ok explorer =>
              refine Or.inr (Or.inr ⟨text, b, contracts,
                { chainId := parseInt c, chainName := chainName, explorer := explorer,
                  timestamp := w.clock 0, contracts := contracts },
                ?_, ?_, ?_, hne, rfl, rfl, rfl, ?_, ?_, rfl⟩) <;>
              first | rfl | assumption

theorem extractAddressesForChain_fs (parse : String → Option JsVal) (c : String) (w : World) :
    (extractAddressesForChain parse c w).2.fs = w.fs := by
  rcases extractAddressesForChain_cases parse c w with h | ⟨e, h⟩ |
    ⟨_, _, _, _, _, _, _, _, _, _, _, _, _, h⟩ <;> rw [h]

theorem extractAddressesForChain_none_world (parse : String → Option JsVal) (c : String)
    (w : World) (h : (extractAddressesForChain parse c w).1 = .ok none) :
    extractAddressesForChain parse c w = (.ok none, w) := by
  rcases extractAddressesForChain_cases parse c w with h' | ⟨e, h'⟩ |
    ⟨_, _, _, _, _, _, _, _, _, _, _, _, _, h'⟩
  · exact h'
  · rw [h'] at h; cases h
  · rw [h'] at h; cases h

theorem ensureStep_eq (p : Path) (w : World) :
    (do if !(← existsSync p) then mkdirSync p : Script Unit) w = (.ok (), ensureDir w p) := by
  cases h : pathExists w p
  · have h' := h
    simp only [pathExists] at h'
    simp [existsSync, h', ensureDir, h]
    rfl
  · have h' := h
    simp only [pathExists] at h'
    simp [existsSync, h', ensureDir, h]

theorem ensureDirectories_eq (w : World) :
    ensureDirectories w = (.ok (), ensureDir (ensureDir w DEPLOY_DIR) ABI_DIR) := by
  have h1 := ensureStep_eq DEPLOY_DIR w
  have h2 := ensureStep_eq ABI_DIR (ensureDir w DEPLOY_DIR)
  simp only [Script.bind_apply] at h1 h2
  simp only [ensureDirectories, Script.bind_apply]
  cases hb : existsSync DEPLOY_DIR w with
  | mk o w1 =>
    rw [hb] at h1
    cases o with
    | ok b =>
      cases b
      · simp only [Bool.not_false, if_true] at h1 ⊢
        simp only [Script.bind_apply, h1]
        exact h2
      · simp only [Bool.not_true, Bool.false_eq_true, if_false, Script.pure_apply,
          Script.bind_apply] at h1 ⊢
        rw [(Prod.mk.inj h1).2]
        exact h2
    | throw e => simp at h1
    | exit c => simp at h1

theorem isPrefixOf_outside (p q : Path) (hq : q.head? ≠ some "deployments")
    (hp : p.head? = some "deployments") : (!q.isEmpty && q.isPrefixOf p) = false := by
  cases q with
  | nil => rfl
  | cons a q' =>
    cases p with
    | nil => simp [List.isPrefixOf]
    | cons b p' =>
      simp only [List.head?_cons, Option.some.injEq, ne_eq] at hq hp
      subst hp
      simp [List.isPrefixOf, hq]

theorem SameInputs.refl (w : World) : SameInputs w w := ⟨rfl, fun _ _ => ⟨rfl, rfl⟩⟩

theorem SameInputs.symm {w₁ w₂ : World} (h : SameInputs w₁ w₂) : SameInputs w₂ w₁ :=
  ⟨h.1.symm, fun p hp => ⟨(h.2 p hp).1.symm, (h.2 p hp).2.symm⟩⟩

theorem SameInputs.trans {w₁ w₂ w₃ : World} (h : SameInputs w₁ w₂) (h' : SameInputs w₂ w₃) :
    SameInputs w₁ w₃ :=
  ⟨h.1.trans h'.1, fun p hp =>
    ⟨(h.2 p hp).1.trans (h'.2 p hp).1, (h.2 p hp).2.trans (h'.2 p hp).2⟩⟩

theorem sameInputs_ensureDir (w : World) (p : Path) (hp : p.head? = some "deployments") :
    SameInputs w (ensureDir w p) := by
  unfold ensureDir
  split
  · exact SameInputs.refl w
  · refine ⟨rfl, fun q hq => ⟨rfl, ?_⟩⟩
    simp [mkdirSync, isPrefixOf_outside p q hq hp]

theorem ensureDir_files (w : World) (p : Path) : (ensureDir w p).fs.files = w.fs.files := by
  unfold ensureDir
  split <;> rfl

theorem sameInputs_ensureDirectories (w : World) :
    SameInputs w (ensureDirectories w).2 := by
  rw [ensureDirectories_eq]
  exact (sameInputs_ensureDir w DEPLOY_DIR rfl).trans (sameInputs_ensureDir _ ABI_DIR rfl)

theorem ensureDirectories_files (w : World) :
    (ensureDirectories w).2.fs.files = w.fs.files := by
  rw [ensureDirectories_eq]
  simp only [ensureDir_files]

theorem stringify_of_truthy (v : JsVal) (h : v.isTruthy = true) :
    ∃ s, stringify v = some s := by
  cases v <;> simp [JsVal.isTruthy] at h <;> simp only [stringify, stringifyAt]
  all_goals first
    | exact ⟨_, rfl⟩
    | (split <;> exact ⟨_, rfl⟩)

theorem extractAllABIs_body_eq (parse : String → Option JsVal) (n : String) (w : World) :
    extractAllABIs.body parse n w =
      match abiDecision parse (w.fs.files (artifactPath n)) (w.fs.dirs (artifactPath n)) with
      | .error e => (.throw e, w)
      | .ok none => (.ok (), w)
      | .ok (some s) => (.ok (), writeFile w (abiOutputPath n) s) := by
  cases hf : w.fs.files (artifactPath n) with
  | none =>
    cases hd : w.fs.dirs (artifactPath n) <;>
      simp [extractAllABIs.body, extractABI, existsSync, readFileSync, hf, hd, abiDecision,
        JsVal.isTruthy]
  | some text =>
    cases hp : parse text with
    | none =>
      simp [extractAllABIs.body, extractABI, existsSync, readFileSync, jsonParse, hf, hp,
        abiDecision]
    | some artifact =>
      cases hg : artifact.getProp "abi" with
      | error e =>
        simp [extractAllABIs.body, extractABI, existsSync, readFileSync, jsonParse, hf, hp, hg,
          abiDecision]
      | ok abi =>
        cases ht : abi.isTruthy with
        | false =>
          simp [extractAllABIs.body, extractABI, existsSync, readFileSync, jsonParse, hf, hp, hg,
            abiDecision, ht]
        | true =>
          obtain ⟨s, hs⟩ := stringify_of_truthy abi ht
          simp [extractAllABIs.body, extractABI, existsSync, readFileSync, jsonParse, hf, hp, hg,
            abiDecision, ht, hs, writeFileSync, writeFile]

theorem abiOutputPath_head (n : String) : (abiOutputPath n).head? = some "deployments" := rfl

theorem broadcastPath_head (c : String) : (broadcastPath c).head? ≠ some "deployments" := by
  simp [broadcastPath, BROADCAST_DIR]

theorem sameInputs_writeFile (w : World) (p : Path) (s : String)
    (hp : p.head? = some "deployments") : SameInputs w (writeFile w p s) := by
  refine ⟨rfl, fun q hq => ⟨?_, rfl⟩⟩
  have hne : q ≠ p := fun e => hq (e ▸ hp)
  simp [writeFile, hne]

theorem extractAllABIs_body_sameInputs (parse : String → Option JsVal) (n : String)
    (w : World) : SameInputs w (extractAllABIs.body parse n w).2 := by
  rw [extractAllABIs_body_eq]
  split
  · exact SameInputs.refl w
  · exact SameInputs.refl w
  · exact sameInputs_writeFile w _ _ (abiOutputPath_head n)

theorem extractAllABIs_body_files (parse : String → Option JsVal) (n : String) (w : World)
    (p : Path) (hp : p ≠ abiOutputPath n) :
    (extractAllABIs.body parse n w).2.fs.files p = w.fs.files p := by
  rw [extractAllABIs_body_eq]
  split
  · rfl
  · rfl
  · simp [writeFile, hp]

theorem Script.bind_pure_unit (m : Script Unit) (w : World) :
    (m >>= fun _ => (pure () : Script Unit)) w = m w := by
  simp only [Script.bind_apply]
  cases h : m w with
  | mk o w' => cases o <;> rfl

theorem extractAllABIs_eq (parse : String → Option JsVal) (w : World) :
    extractAllABIs parse w =
      match extractAllABIs.body parse "CourseFactory" w with
      | (.ok _, w') => extractAllABIs.body parse "CourseNFT" w'
      | (.throw e, w') => (.throw e, w')
      | (.exit c, w') => (.exit c, w') := by
  simp only [extractAllABIs, CONTRACTS, forEach, Script.bind_apply]
  cases h : extractAllABIs.body parse "CourseFactory" w with
  | mk o w' =>
    cases o with
    | ok u =>
      simp only
      have := Script.bind_pure_unit (extractAllABIs.body parse "CourseNFT") w'
      simp only [Script.bind_apply] at this
      exact this
    | throw e => rfl
    | exit c => rfl

theorem extractAllABIs_body_not_exit (parse : String → Option JsVal) (n : String) (w : World)
    (c : Nat) : (extractAllABIs.body parse n w).1 ≠ .exit c := by
  rw [extractAllABIs_body_eq]
  split <;> simp

theorem extractAllABIs_sameInputs (parse : String → Option JsVal) (w : World) :
    SameInputs w (extractAllABIs parse w).2 := by
  rw [extractAllABIs_eq]
  have h1 := extractAllABIs_body_sameInputs parse "CourseFactory" w
  cases h : extractAllABIs.body parse "CourseFactory" w with
  | mk o w' =>
    rw [h] at h1
    cases o with
    | ok u => exact h1.trans (extractAllABIs_body_sameInputs parse "CourseNFT" w')
    | throw e => exact h1
    | exit c => exact h1

theorem extractAllABIs_files (parse : String → Option JsVal) (w : World) (p : Path)
    (hp : ∀ n ∈ CONTRACTS, p ≠ abiOutputPath n) :
    (extractAllABIs parse w).2.fs.files p = w.fs.files p := by
  rw [extractAllABIs_eq]
  have h1 := extractAllABIs_body_files parse "CourseFactory" w p (hp _ (by simp [CONTRACTS]))
  cases h : extractAllABIs.body parse "CourseFactory" w with
  | mk o w' =>
    rw [h] at h1
    cases o with
    | ok u =>
      simp only at h1 ⊢
      rw [extractAllABIs_body_files parse "CourseNFT" w' p (hp _ (by simp [CONTRACTS])), h1]
    | throw e => exact h1
    | exit c => exact h1

theorem objectKeys_CHAINS : objectKeys (CHAINS.map Prod.fst) = ["8453", "84532"] := by
  decide

theorem setProp_nil (k : String) (v : JsVal) : setProp [] k v = [(k, v)] := by
  simp only [setProp, List.any_nil, Bool.false_eq_true, if_false]
  cases arrayIndex? k <;> rfl

theorem setProp_8453_84532 (v₁ v₂ : JsVal) :
    setProp [("8453", v₁)] "84532" v₂ = [("8453", v₁), ("84532", v₂)] := by
  rfl

theorem extractAllAddresses_eq (parse : String → Option JsVal) (w : World) :
    extractAllAddresses parse w =
      match extractAddressesForChain parse "8453" w with
      | (.ok o₁, w₁) =>
        match extractAddressesForChain parse "84532" w₁ with
        | (.ok o₂, w₂) =>
          if (registryEntries [("8453", o₁), ("84532", o₂)]).length > 0 then
            writeFileSync addressesPath
              (stringify (.obj (registryEntries [("8453", o₁), ("84532", o₂)]))) w₂
          else (.ok (), w₂)
        | (.throw e, w₂) => (.throw e, w₂)
        | (.exit c, w₂) => (.exit c, w₂)
      | (.throw e, w₁) => (.throw e, w₁)
      | (.exit c, w₁) => (.exit c, w₁) := by
  simp only [extractAllAddresses, objectKeys_CHAINS, collectAddresses, Script.bind_apply]
  cases h1 : extractAddressesForChain parse "8453" w with
  | mk r1 w1 =>
    cases r1 with
    | throw e => rfl
    | exit c => rfl
    | ok o1 =>
      cases o1 with
      | none =>
        simp only [Script.bind_apply]
        cases h2 : extractAddressesForChain parse "84532" w1 with
        | mk r2 w2 =>
          cases r2 with
          | throw e => rfl
          | exit c => rfl
          | ok o2 =>
            cases o2 with
            | none => simp [registryEntries]
            | some r => simp [registryEntries, setProp_nil]
      | some r₁ =>
        simp only [Script.bind_apply, setProp_nil]
        cases h2 : extractAddressesForChain parse "84532" w1 with
        | mk r2 w2 =>
          cases r2 with
          | throw e => rfl
          | exit c => rfl
          | ok o2 =>
            cases o2 with
            | none => simp [registryEntries]
            | some r => simp [registryEntries, setProp_8453_84532]

theorem main_chain_eq (parse : String → Option JsVal) (c : String) (w : World)
    (h1 : c ≠ "") (h2 : c ≠ "all") (h3 : c ≠ "abi") (h4 : (chainsGet c).isTruthy = true) :
    main parse (some c) w =
      match extractAllABIs parse (ensureDirectories w).2 with
      | (.ok _, w₁) =>
        match extractAddressesForChain parse c w₁ with
        | (.ok (some r), w₂) =>
          writeFileSync addressesPath (stringify (.obj [(c, r.toJs)])) w₂
        | (.ok none, w₂) => (.ok (), w₂)
        | (.throw e, w₂) => (.throw e, w₂)
        | (.exit k, w₂) => (.exit k, w₂)
      | (.throw e, w₁) => (.throw e, w₁)
      | (.exit k, w₁) => (.exit k, w₁) := by
  have e1 : (c == "") = false := by simpa using h1
  have e2 : (c == "all") = false := by simpa using h2
  have e3 : (c == "abi") = false := by simpa using h3
  simp only [main, Script.bind_apply, ensureDirectories_eq, e1, e2, e3, h4,
    Bool.or_self, Bool.false_eq_true, if_false, if_true]
  cases extractAllABIs parse (ensureDir (ensureDir w DEPLOY_DIR) ABI_DIR) with
  | mk o w1 =>
    cases o with
    | throw e => rfl
    | exit k => rfl
    | ok u =>
      simp only [Script.bind_apply]
      cases extractAddressesForChain parse c w1 with
      | mk o' w2 =>
        cases o' with
        | throw e => rfl
        | exit k => rfl
        | ok d =>
          cases d with
          | none => rfl
          | some r => simp only [setProp_nil]

theorem main_invalid_eq (parse : String → Option JsVal) (a : String) (w : World)
    (h1 : a ≠ "") (h2 : a ≠ "all") (h3 : a ≠ "abi") (h4 : (chainsGet a).isTruthy = false) :
    main parse (some a) w = (.exit 1, (ensureDirectories w).2) := by
  have e1 : (a == "") = false := by simpa using h1
  have e2 : (a == "all") = false := by simpa using h2
  have e3 : (a == "abi") = false := by simpa using h3
  simp only [main, Script.bind_apply, ensureDirectories_eq, e1, e2, e3, h4,
    Bool.or_self, Bool.false_eq_true, if_false]
  rfl

theorem main_all_eq (parse : String → Option JsVal) (arg : Option String) (w : World)
    (h : arg = none ∨ arg = some "" ∨ arg = some "all") :
    main parse arg w =
      match extractAllABIs parse (ensureDirectories w).2 with
      | (.ok _, w₁) => extractAllAddresses parse w₁
      | (.throw e, w₁) => (.throw e, w₁)
      | (.exit k, w₁) => (.exit k, w₁) := by
  have key : (do extractAllABIs parse; extractAllAddresses parse : Script Unit)
        (ensureDir (ensureDir w DEPLOY_DIR) ABI_DIR) =
      match extractAllABIs parse (ensureDir (ensureDir w DEPLOY_DIR) ABI_DIR) with
      | (.ok _, w₁) => extractAllAddresses parse w₁
      | (.throw e, w₁) => (.throw e, w₁)
      | (.exit k, w₁) => (.exit k, w₁) := by
    simp only [Script.bind_apply]
    cases extractAllABIs parse (ensureDir (ensureDir w DEPLOY_DIR) ABI_DIR) with
    | mk o w1 => cases o <;> rfl
  rcases h with rfl | rfl | rfl
  · simp only [main, Script.bind_apply, ensureDirectories_eq]
    exact key
  · simp only [main, Script.bind_apply, ensureDirectories_eq]
    exact key
  · simp only [main, Script.bind_apply, ensureDirectories_eq]
    exact key

theorem main_abi_eq (parse : String → Option JsVal) (w : World) :
    main parse (some "abi") w = extractAllABIs parse (ensureDirectories w).2 := by
  simp only [main, Script.bind_apply, ensureDirectories_eq]
  rfl

theorem chainsGet_configured (c : String) (h : c ∈ CHAINS.map Prod.fst) :
    c ≠ "" ∧ c ≠ "all" ∧ c ≠ "abi" ∧ (chainsGet c).isTruthy = true := by
  simp only [CHAINS, List.map_cons, List.map_nil, List.mem_cons, List.mem_singleton,
    List.not_mem_nil, or_false] at h
  rcases h with rfl | rfl <;> decide

theorem chainsGet_unknown (a : String) (h4 : a ∉ CHAINS.map Prod.fst)
    (h5 : a ∉ objectPrototypeMembers) : (chainsGet a).isTruthy = false := by
  simp only [CHAINS, List.map_cons, List.map_nil, List.mem_cons, List.mem_singleton,
    List.not_mem_nil, or_false, not_or] at h4
  have hl : CHAINS.lookup a = none := by
    simp only [CHAINS, lookup_cons_ite, h4.1, h4.2, if_false]
    rfl
  have hc : objectPrototypeMembers.contains a = false := by
    simpa using h5
  simp only [chainsGet, hl, hc]
  rfl

theorem extractAllABIs_body_congr (parse : String → Option JsVal) (n : String)
    (w₁ w₂ : World)
    (hf : w₁.fs.files (artifactPath n) = w₂.fs.files (artifactPath n))
    (hd : w₁.fs.dirs (artifactPath n) = w₂.fs.dirs (artifactPath n)) :
    (extractAllABIs.body parse n w₁).1 = (extractAllABIs.body parse n w₂).1 ∧
      ∀ p, w₁.fs.files p = w₂.fs.files p →
        (extractAllABIs.body parse n w₁).2.fs.files p =
          (extractAllABIs.body parse n w₂).2.fs.files p := by
  rw [extractAllABIs_body_eq, extractAllABIs_body_eq, hf, hd]
  split
  · exact ⟨rfl, fun p hp => hp⟩
  · exact ⟨rfl, fun p hp => hp⟩
  · refine ⟨rfl, fun p hp => ?_⟩
    simp only [writeFile]
    split
    · rfl
    · exact hp

theorem extractAllABIs_body_dirs (parse : String → Option JsVal) (n : String) (w : World) :
    (extractAllABIs.body parse n w).2.fs.dirs = w.fs.dirs := by
  rw [extractAllABIs_body_eq]
  split <;> rfl

theorem extractAllABIs_body_missing (parse : String → Option JsVal) (n : String) (w : World)
    (hf : w.fs.files (artifactPath n) = none) (hd : w.fs.dirs (artifactPath n) = false) :
    extractAllABIs.body parse n w = (.ok (), w) := by
  rw [extractAllABIs_body_eq, hf, hd]
  rfl

theorem artifactPath_ne_abiOutputPath (n m : String) : artifactPath n ≠ abiOutputPath m := by
  intro h
  have := congrArg List.head? h
  simp [artifactPath, abiOutputPath, OUT_DIR, ABI_DIR, DEPLOY_DIR] at this

theorem pathExists_false (w : World) (p : Path) (h : pathExists w p = false) :
    w.fs.files p = none ∧ w.fs.dirs p = false := by
  simp only [pathExists, Bool.or_eq_false_iff] at h
  refine ⟨?_, h.2⟩
  cases hf : w.fs.files p with
  | none => rfl
  | some t => rw [hf] at h; simp at h

theorem extractAddressesForChain_clock (parse : String → Option JsVal) (c : String)
    (w : World) (clock' : Nat → String) :
    (extractAddressesForChain parse c { w with clock := clock' }).1 =
      match (extractAddressesForChain parse c w).1 with
      | .ok (some r) => .ok (some { r with timestamp := clock' 0 })
      | o => o := by
  cases hf : w.fs.files (broadcastPath c) with
  | none =>
    cases hd : w.fs.dirs (broadcastPath c) with
    | false =>
      rw [extractAddressesForChain_missing parse c w hf hd,
        extractAddressesForChain_missing parse c { w with clock := clock' } hf hd]
    | true =>
      rw [extractAddressesForChain_directory parse c w hf hd,
        extractAddressesForChain_directory parse c { w with clock := clock' } hf hd]
  | some text =>
    cases hp : parse text with
    | none =>
      rw [extractAddressesForChain_malformed parse c w text hf hp,
        extractAddressesForChain_malformed parse c { w with clock := clock' } text hf hp]
    | some b =>
      rw [extractAddressesForChain_log parse c w text b hf hp,
        extractAddressesForChain_log parse c { w with clock := clock' } text b hf hp]
      cases collectContracts b with
      | error e => rfl
      | ok contracts =>
        simp only
        split
        · rfl
        · split <;> rfl

theorem extractABI_malformed (parse : String → Option JsVal) (n : String) (w : World)
    (text : String) (hf : w.fs.files (artifactPath n) = some text) (hp : parse text = none) :
    extractABI parse n w = (.throw .parseError, w) := by
  simp [extractABI, existsSync, readFileSync, jsonParse, hf, hp]

theorem extractAllABIs_body_malformed (parse : String → Option JsVal) (n : String) (w : World)
    (text : String) (hf : w.fs.files (artifactPath n) = some text) (hp : parse text = none) :
    extractAllABIs.body parse n w = (.throw .parseError, w) := by
  rw [extractAllABIs_body_eq, hf]
  simp only [abiDecision, hp]

theorem abiOutputPath_ne_addressesPath (n : String) : addressesPath ≠ abiOutputPath n := by
  intro h
  have := congrArg List.length h
  simp [addressesPath, abiOutputPath, ABI_DIR, DEPLOY_DIR] at this

theorem extractAllABIs_addresses (parse : String → Option JsVal) (w : World) :
    (extractAllABIs parse w).2.fs.files addressesPath = w.fs.files addressesPath :=
  extractAllABIs_files parse w addressesPath (fun n _ => abiOutputPath_ne_addressesPath n)

theorem extractAllABIs_not_exit (parse : String → Option JsVal) (w : World) (k : Nat) :
    (extractAllABIs parse w).1 ≠ .exit k := by
  rw [extractAllABIs_eq]
  have h1 := extractAllABIs_body_not_exit parse "CourseFactory" w
  cases e : extractAllABIs.body parse "CourseFactory" w with
  | mk o w1 =>
    rw [e] at h1
    cases o with
    | ok u => exact extractAllABIs_body_not_exit parse "CourseNFT" w1 k
    | throw err => simp
    | exit j => exact absurd rfl (h1 j)

theorem extractAllABIs_malformed (parse : String → Option JsVal) (n : String) (w : World)
    (text : String) (hn : n ∈ CONTRACTS)
    (hf : w.fs.files (artifactPath n) = some text) (hp : parse text = none) :
    (∃ e, (extractAllABIs parse w).1 = .throw e) ∧
      (extractAllABIs parse w).2.fs.files (abiOutputPath n) = w.fs.files (abiOutputPath n) := by
  rw [extractAllABIs_eq]
  simp only [CONTRACTS, List.mem_cons, List.mem_singleton, List.not_mem_nil, or_false] at hn
  rcases hn with rfl | rfl
  · rw [extractAllABIs_body_malformed parse _ w text hf hp]
    exact ⟨⟨_, rfl⟩, rfl⟩
  · have f1 := extractAllABIs_body_files parse "CourseFactory" w
    have hne := extractAllABIs_body_not_exit parse "CourseFactory" w
    cases e : extractAllABIs.body parse "CourseFactory" w with
    | mk o w1 =>
      rw [e] at f1 hne
      simp only at f1 hne
      have hkeep : w1.fs.files (abiOutputPath "CourseNFT") =
          w.fs.files (abiOutputPath "CourseNFT") := f1 _ (by decide)
      cases o with
      | ok u =>
        simp only
        rw [extractAllABIs_body_malformed parse _ w1 text
          ((f1 _ (artifactPath_ne_abiOutputPath _ _)).trans hf) hp]
        exact ⟨⟨_, rfl⟩, hkeep⟩
      | throw err => exact ⟨⟨_, rfl⟩, hkeep⟩
      | exit j => exact absurd rfl (hne j)

theorem main_runs_extractAllABIs_or_exits (parse : String → Option JsVal)
    (arg : Option String) (w : World) :
    main parse arg w = (.exit 1, (ensureDirectories w).2) ∨
      ∀ e w₁, extractAllABIs parse (ensureDirectories w).2 = (.throw e, w₁) →
        main parse arg w = (.throw e, w₁) := by
  cases arg with
  | none =>
    right
    intro e w₁ h
    rw [main_all_eq parse none w (Or.inl rfl), h]
  | some a =>
    by_cases h1 : a = ""
    · right
      intro e w₁ h
      rw [main_all_eq parse (some a) w (Or.inr (Or.inl (by rw [h1]))), h]
    · by_cases h2 : a = "all"
      · right
        intro e w₁ h
        rw [main_all_eq parse (some a) w (Or.inr (Or.inr (by rw [h2]))), h]
      · by_cases h3 : a = "abi"
        · right
          intro e w₁ h
          rw [h3, main_abi_eq, h]
        · cases h4 : (chainsGet a).isTruthy with
          | true =>
            right
            intro e w₁ h
            rw [main_chain_eq parse a w h1 h2 h3 h4, h]
          | false => exact Or.inl (main_invalid_eq parse a w h1 h2 h3 h4)

theorem run_malformed_artifact (parse : String → Option JsVal) (n : String) (w : World)
    (text : String) (hn : n ∈ CONTRACTS)
    (hf : w.fs.files (artifactPath n) = some text) (hp : parse text = none)
    (arg : Option String) :
    (run parse arg w).1 = 1 ∧
      (run parse arg w).2.fs.files (abiOutputPath n) = w.fs.files (abiOutputPath n) ∧
      (run parse arg w).2.fs.files addressesPath = w.fs.files addressesPath := by
  have hfe : (ensureDirectories w).2.fs.files (artifactPath n) = some text := by
    rw [ensureDirectories_files]; exact hf
  obtain ⟨⟨e, he⟩, hkeep⟩ := extractAllABIs_malformed parse n _ text hn hfe hp
  have hadd := extractAllABIs_addresses parse (ensureDirectories w).2
  rw [ensureDirectories_files] at hkeep hadd
  rcases main_runs_extractAllABIs_or_exits parse arg w with h | h
  · simp only [run, h, ensureDirectories_files, and_self]
  · cases ea : extractAllABIs parse (ensureDirectories w).2 with
    | mk o w₁ =>
      rw [ea] at he hkeep hadd
      simp only at he hkeep hadd
      subst he
      simp only [run, h e w₁ ea]
      exact ⟨trivial, hkeep, hadd⟩

theorem extractAddressesForChain_not_exit (parse : String → Option JsVal) (c : String)
    (w : World) (k : Nat) : (extractAddressesForChain parse c w).1 ≠ .exit k := by
  rcases extractAddressesForChain_cases parse c w with h | ⟨e, h⟩ |
    ⟨_, _, _, _, _, _, _, _, _, _, _, _, _, h⟩ <;> rw [h] <;> simp

theorem extractAllAddresses_malformed (parse : String → Option JsVal) (c : String) (w : World)
    (text : String) (hc : c ∈ CHAINS.map Prod.fst)
    (hf : w.fs.files (broadcastPath c) = some text) (hp : parse text = none) :
    (∃ e, (extractAllAddresses parse w).1 = .throw e) ∧
      (extractAllAddresses parse w).2.fs = w.fs := by
  rw [extractAllAddresses_eq]
  simp only [CHAINS, List.map_cons, List.map_nil, List.mem_cons, List.mem_singleton,
    List.not_mem_nil, or_false] at hc
  rcases hc with rfl | rfl
  · have hfs := extractAddressesForChain_fs parse "8453" w
    have hne := extractAddressesForChain_not_exit parse "8453" w
    cases e1 : extractAddressesForChain parse "8453" w with
    | mk o w1 =>
      rw [e1] at hfs hne
      simp only at hfs hne
      cases o with
      | ok o₁ =>
        simp only
        rw [extractAddressesForChain_malformed parse "84532" w1 text (by rw [hfs]; exact hf) hp]
        exact ⟨⟨_, rfl⟩, hfs⟩
      | throw err => exact ⟨⟨_, rfl⟩, hfs⟩
      | exit j => exact absurd rfl (hne j)
  · rw [extractAddressesForChain_malformed parse "8453" w text hf hp]
    exact ⟨⟨_, rfl⟩, rfl⟩

theorem run_malformed_log (parse : String → Option JsVal) (c : String) (w : World)
    (text : String) (hc : c ∈ CHAINS.map Prod.fst)
    (hf : w.fs.files (broadcastPath c) = some text) (hp : parse text = none)
    (arg : Option String)
    (harg : arg = none ∨ arg = some "" ∨ arg = some "all" ∨ arg = some c) :
    (run parse arg w).1 = 1 ∧
      (run parse arg w).2.fs.files addressesPath = w.fs.files addressesPath := by
  have s1 : SameInputs w (extractAllABIs parse (ensureDirectories w).2).2 :=
    (sameInputs_ensureDirectories w).trans (extractAllABIs_sameInputs parse _)
  have hadd := extractAllABIs_addresses parse (ensureDirectories w).2
  rw [ensureDirectories_files] at hadd
  have hne := extractAllABIs_not_exit parse (ensureDirectories w).2
  have hall : arg = none ∨ arg = some "" ∨ arg = some "all" ∨
      (arg = some c ∧ c ≠ "" ∧ c ≠ "all") := by
    obtain ⟨h1, h2, _, _⟩ := chainsGet_configured c hc
    rcases harg with h | h | h | h
    · exact Or.inl h
    · exact Or.inr (Or.inl h)
    · exact Or.inr (Or.inr (Or.inl h))
    · exact Or.inr (Or.inr (Or.inr ⟨h, h1, h2⟩))
  have key : ∀ m : World → Outcome Unit × World,
      (∀ w₁, SameInputs w w₁ → (∃ e, (m w₁).1 = .throw e) ∧
        (w₁.fs.files addressesPath = w.fs.files addressesPath →
          (m w₁).2.fs.files addressesPath = w.fs.files addressesPath)) →
      main parse arg w =
        (match extractAllABIs parse (ensureDirectories w).2 with
          | (.ok _, w₁) => m w₁
          | (.throw e, w₁) => (.throw e, w₁)
          | (.exit k, w₁) => (.exit k, w₁)) →
      (run parse arg w).1 = 1 ∧
        (run parse arg w).2.fs.files addressesPath = w.fs.files addressesPath := by
    intro m hm hmain
    unfold run
    rw [hmain]
    cases ea : extractAllABIs parse (ensureDirectories w).2 with
    | mk o w₁ =>
      rw [ea] at s1 hadd hne
      simp only at s1 hadd hne
      cases o with
      | ok u =>
        obtain ⟨⟨e, he⟩, hk⟩ := hm w₁ s1
        simp only
        cases em : m w₁ with
        | mk o' w₂ =>
          rw [em] at he hk
          simp only at he hk
          subst he
          exact ⟨rfl, hk hadd⟩
      | throw err => exact ⟨rfl, hadd⟩
      | exit j => exact absurd rfl (hne j)
  rcases hall with h | h | h | ⟨h, h1, h2⟩
  · refine key (extractAllAddresses parse) ?_ (main_all_eq parse arg w (Or.inl h))
    intro w₁ hs
    have hf1 : w₁.fs.files (broadcastPath c) = some text := by
      rw [← (hs.2 _ (broadcastPath_head c)).1]; exact hf
    obtain ⟨he, hfs⟩ := extractAllAddresses_malformed parse c w₁ text hc hf1 hp
    exact ⟨he, fun hk => by rw [hfs]; exact hk⟩
  · refine key (extractAllAddresses parse) ?_ (main_all_eq parse arg w (Or.inr (Or.inl h)))
    intro w₁ hs
    have hf1 : w₁.fs.files (broadcastPath c) = some text := by
      rw [← (hs.2 _ (broadcastPath_head c)).1]; exact hf
    obtain ⟨he, hfs⟩ := extractAllAddresses_malformed parse c w₁ text hc hf1 hp
    exact ⟨he, fun hk => by rw [hfs]; exact hk⟩
  · refine key (extractAllAddresses parse) ?_ (main_all_eq parse arg w (Or.inr (Or.inr h)))
    intro w₁ hs
    have hf1 : w₁.fs.files (broadcastPath c) = some text := by
      rw [← (hs.2 _ (broadcastPath_head c)).1]; exact hf
    obtain ⟨he, hfs⟩ := extractAllAddresses_malformed parse c w₁ text hc hf1 hp
    exact ⟨he, fun hk => by rw [hfs]; exact hk⟩
  · obtain ⟨_, _, h3, h4⟩ := chainsGet_configured c hc
    subst h
    refine key (fun w₁ => (.throw .parseError, w₁)) ?_ ?_
    · intro w₁ _
      exact ⟨⟨_, rfl⟩, fun hk => hk⟩
    · rw [main_chain_eq parse c w h1 h2 h3 h4]
      cases ea : extractAllABIs parse (ensureDirectories w).2 with
      | mk o w₁ =>
        rw [ea] at s1
        cases o with
        | ok u =>
          simp only
          rw [extractAddressesForChain_malformed parse c w₁ text
            (by rw [← (s1.2 _ (broadcastPath_head c)).1]; exact hf) hp]
        | throw err => rfl
        | exit j => rfl

theorem extractAddressesForChain_unknown_chain_raises (parse : String → Option JsVal)
    (c : String) (w : World) (text : String) (broadcast : JsVal) (txs : List JsVal)
    (hc : chainsGet c = .undefined)
    (hfile : w.fs.files (broadcastPath c) = some text)
    (hparse : parse text = some broadcast)
    (htxs : broadcast.getProp "transactions" = .ok (.arr txs))
    (hobj : ∀ t ∈ txs, t.isObject = true)
    (hsome : ∃ t ∈ txs, isKnownCreate t = true) :
    extractAddressesForChain parse c w = (.throw .typeError, w) := by
  obtain ⟨contracts, hcol⟩ := collectFrom_objects [] txs hobj
  obtain ⟨t, ht, hk⟩ := hsome
  obtain ⟨n, hn, hcr⟩ := (isKnownCreate_iff t).mp hk
  have hmem : n ∈ contracts.map Prod.fst :=
    (collectFrom_keys [] contracts txs hcol n).mpr (Or.inr ⟨hn, t, ht, hcr⟩)
  have hlen : contracts.length ≠ 0 := by
    intro h0
    rw [List.length_eq_zero.mp h0] at hmem
    cases hmem
  rw [extractAddressesForChain_log parse c w text broadcast hfile hparse,
    collectContracts_arr broadcast txs htxs, hcol]
  simp only [beq_iff_eq, hlen, if_false, chainsField, hc]

/-! ### The text `JSON.stringify` writes, read back -/

theorem skipWhitespace_append (lead cs : List Char)
    (h : ∀ c ∈ lead, isJsonWhitespace c = true) :
    skipWhitespace (lead ++ cs) = skipWhitespace cs := by
  induction lead with
  | nil => rfl
  | cons c t ih =>
    have hc := h c (List.mem_cons_self _ _)
    simp only [List.cons_append, skipWhitespace, hc, if_true]
    exact ih fun x hx => h x (List.mem_cons_of_mem _ hx)

theorem skipWhitespace_cons (c : Char) (cs : List Char) (h : isJsonWhitespace c = false) :
    skipWhitespace (c :: cs) = c :: cs := by
  simp [skipWhitespace, h]

theorem expectLiteral_append (p rest : List Char) : expectLiteral p (p ++ rest) = some rest := by
  induction p with
  | nil => cases rest <;> rfl
  | cons c t ih => simp [expectLiteral, ih]

theorem digitChar_isDigit (d : Nat) (h : d < 10) : (Nat.digitChar d).isDigit = true := by
  interval_cases d <;> rfl

theorem digitChar_value (d : Nat) (h : d < 10) : (Nat.digitChar d).toNat - 48 = d := by
  interval_cases d <;> rfl

theorem digitChar_zero (d : Nat) (h : d < 10) (h0 : Nat.digitChar d = '0') : d = 0 := by
  interval_cases d <;> first | rfl | (exact absurd h0 (by decide))

/-- What `Nat.toDigitsCore` appends in front of the digits it was given. -/
theorem toDigitsCore_spec (fuel : Nat) : ∀ (n : Nat) (ds : List Char), n < fuel →
    ∃ pre, Nat.toDigitsCore 10 fuel n ds = pre ++ ds ∧ pre ≠ [] ∧
      (∀ c ∈ pre, c.isDigit = true) ∧ digitsValue pre = n ∧
      (pre.length > 1 → pre.head? ≠ some '0') := by
  induction fuel with
  | zero => intro n ds h; omega
  | succ f ih =>
    intro n ds h
    have hd : n % 10 < 10 := Nat.mod_lt _ (by decide)
    by_cases hq : n / 10 = 0
    · refine ⟨[Nat.digitChar (n % 10)], ?_, by simp, ?_, ?_, by simp⟩
      · simp [Nat.toDigitsCore, hq]
      · intro c hc
        simp only [List.mem_singleton] at hc
        rw [hc]; exact digitChar_isDigit _ hd
      · simp only [digitsValue, List.foldl_cons, List.foldl_nil, Nat.mul_zero, Nat.zero_add]
        rw [digitChar_value _ hd]
        omega
    · have hlt : n / 10 < f := by omega
      obtain ⟨pre, hpre, hne, hdig, hval, hlead⟩ := ih (n / 10) (Nat.digitChar (n % 10) :: ds) hlt
      refine ⟨pre ++ [Nat.digitChar (n % 10)], ?_, by simp, ?_, ?_, ?_⟩
      · simp [Nat.toDigitsCore, hq, hpre]
      · intro c hc
        rcases List.mem_append.1 hc with hc | hc
        · exact hdig c hc
        · simp only [List.mem_singleton] at hc
          rw [hc]; exact digitChar_isDigit _ hd
      · simp only [digitsValue, List.foldl_append, List.foldl_cons, List.foldl_nil]
        have : List.foldl (fun acc c => 10 * acc + (c.toNat - 48)) 0 pre = n / 10 := hval
        rw [this, digitChar_value _ hd]
        omega
      · intro _
        cases pre with
        | nil => exact absurd rfl hne
        | cons c t =>
          simp only [List.cons_append, List.head?_cons, ne_eq, Option.some.injEq]
          intro hc
          cases t with
          | nil =>
            simp only [digitsValue, List.foldl_cons, List.foldl_nil, Nat.mul_zero, Nat.zero_add,
              hc] at hval
            exact hq hval.symm
          | cons c' t' =>
            exact hlead (by simp) (by simp [hc])

theorem toDigits_spec (n : Nat) :
    Nat.toDigits 10 n ≠ [] ∧ (∀ c ∈ Nat.toDigits 10 n, c.isDigit = true) ∧
      digitsValue (Nat.toDigits 10 n) = n ∧
      ((Nat.toDigits 10 n).length > 1 → (Nat.toDigits 10 n).head? ≠ some '0') := by
  obtain ⟨pre, hpre, hne, hdig, hval, hlead⟩ := toDigitsCore_spec (n + 1) n [] (Nat.lt_succ_self n)
  have h : Nat.toDigits 10 n = pre := by
    simp only [Nat.toDigits, hpre, List.append_nil]
  rw [h]
  exact ⟨hne, hdig, hval, hlead⟩
theorem startsField_head (rest : List Char) (h : startsField rest = true) :
    rest = [] ∨ ∃ t, rest = ',' :: t ∨ rest = '\n' :: t := by
  cases rest with
  | nil => exact Or.inl rfl
  | cons c t =>
    right
    refine ⟨t, ?_⟩
    simp only [startsField, Bool.or_eq_true, beq_iff_eq] at h
    rcases h with h | h
    · exact Or.inl (by rw [h])
    · exact Or.inr (by rw [h])

theorem takeWhile_digits (ds rest : List Char) (hdig : ∀ c ∈ ds, c.isDigit = true)
    (hrest : startsField rest = true) :
    (ds ++ rest).takeWhile Char.isDigit = ds ∧ (ds ++ rest).dropWhile Char.isDigit = rest := by
  induction ds with
  | nil =>
    rcases startsField_head rest hrest with h | ⟨t, h | h⟩ <;> subst h <;>
      simp [List.takeWhile, List.dropWhile]
  | cons c t ih =>
    have hc := hdig c (List.mem_cons_self _ _)
    obtain ⟨h1, h2⟩ := ih fun x hx => hdig x (List.mem_cons_of_mem _ hx)
    simp [List.takeWhile, List.dropWhile, hc, h1, h2]

theorem isDigit_ne_minus (c : Char) (h : c.isDigit = true) : c ≠ '-' := by
  intro hc; subst hc; exact absurd h (by decide)

theorem parseNumber_digits (ds rest : List Char) (hne : ds ≠ [])
    (hdig : ∀ c ∈ ds, c.isDigit = true) (hlead : ds.length > 1 → ds.head? ≠ some '0')
    (hrest : startsField rest = true) :
    parseNumber (ds ++ rest) = some (.num (digitsValue ds : Int), rest) ∧
      parseNumber ('-' :: ds ++ rest) = some (.num (-(digitsValue ds : Int)), rest) := by
  obtain ⟨h1, h2⟩ := takeWhile_digits ds rest hdig hrest
  have hrest' : (rest.head? == some '.' || rest.head? == some 'e' || rest.head? == some 'E')
      = false := by
    rcases startsField_head rest hrest with h | ⟨t, h | h⟩ <;> subst h <;> simp
  have hemp : ds.isEmpty = false := by
    cases ds with
    | nil => exact absurd rfl hne
    | cons _ _ => rfl
  have hl : (ds.length > 1 && ds.head? == some '0') = false := by
    by_cases hlen : ds.length > 1
    · have := hlead hlen
      simp [this]
    · simp [hlen]
  constructor
  · cases ds with
    | nil => exact absurd rfl hne
    | cons d t =>
      have hd : d ≠ '-' := isDigit_ne_minus d (hdig d (List.mem_cons_self _ _))
      have hneg : (((d :: t) ++ rest).head? == some '-') = false := by
        simp [hd]
      simp only [parseNumber, hneg, Bool.false_eq_true, if_false, h1, h2, hemp, hl, hrest']
  · have hneg : (('-' :: (ds ++ rest)).head? == some '-') = true := by simp
    simp only [parseNumber, List.cons_append, hneg, if_true, List.tail_cons, h1, h2, hemp, hl,
      hrest', Bool.false_eq_true, if_false]

theorem toString_int_data (n : Int) :
    (toString n).data =
      match n with
      | .ofNat m => Nat.toDigits 10 m
      | .negSucc m => '-' :: Nat.toDigits 10 (m + 1) := by
  cases n <;> rfl

theorem parseNumber_toString (n : Int) (rest : List Char) (hrest : startsField rest = true) :
    parseNumber ((toString n).data ++ rest) = some (.num n, rest) := by
  rw [toString_int_data]
  cases n with
  | ofNat m =>
    obtain ⟨hne, hdig, hval, hlead⟩ := toDigits_spec m
    have h := (parseNumber_digits _ rest hne hdig hlead hrest).1
    rw [hval] at h
    exact h
  | negSucc m =>
    obtain ⟨hne, hdig, hval, hlead⟩ := toDigits_spec (m + 1)
    have h := (parseNumber_digits _ rest hne hdig hlead hrest).2
    rw [hval] at h
    simp only [List.cons_append] at h ⊢
    rw [h]
    rfl
theorem char_of_toNat_lt (c : Char) (n : Nat) (h : c.toNat = n) : c = Char.ofNat n := by
  rw [← h, Char.ofNat_toNat]

theorem parseStringBody_quoteChar (c : Char) (X : List Char) (f : Nat) :
    parseStringBody (f + 1) ((quoteChar c).data ++ X) =
      (parseStringBody f X).map fun r => (c :: r.1, r.2) := by
  by_cases hlow : c.toNat < 32
  · have hc : c = Char.ofNat c.toNat := (Char.ofNat_toNat c).symm
    generalize c.toNat = n at hc hlow
    subst hc
    interval_cases n <;> rfl
  · by_cases hq : c = '"'
    · subst hq; rfl
    · by_cases hb : c = '\\'
      · subst hb; rfl
      · have h8 : ¬ c.toNat = 8 := by omega
        have h9 : ¬ c.toNat = 9 := by omega
        have h10 : ¬ c.toNat = 10 := by omega
        have h12 : ¬ c.toNat = 12 := by omega
        have h13 : ¬ c.toNat = 13 := by omega
        simp only [quoteChar, hq, hb, h8, h9, h10, h12, h13, hlow, if_false]
        show parseStringBody (f + 1) (c :: X) = _
        simp only [parseStringBody, hq, hb, hlow, if_false]

theorem quoteChar_length (c : Char) : 0 < (quoteChar c).data.length := by
  unfold quoteChar
  repeat' split
  all_goals simp [String.length]

theorem quote_data (s : String) : (quote s).data = '"' :: (quotedBody s.data ++ ['"']) := by
  simp [quote, quotedBody, String.data_append, String.data_join]

theorem parseStringBody_quotedBody (cs : List Char) : ∀ (rest : List Char) (f : Nat),
    (quotedBody cs ++ '"' :: rest).length < f →
    parseStringBody f (quotedBody cs ++ '"' :: rest) = some (cs, rest) := by
  induction cs with
  | nil =>
    intro rest f hf
    cases f with
    | zero => omega
    | succ f => simp [quotedBody, parseStringBody]
  | cons c t ih =>
    intro rest f hf
    cases f with
    | zero => omega
    | succ f =>
      have e : quotedBody (c :: t) ++ '"' :: rest
          = (quoteChar c).data ++ (quotedBody t ++ '"' :: rest) := by
        simp [quotedBody]
      rw [e] at hf ⊢
      rw [parseStringBody_quoteChar]
      have hl := quoteChar_length c
      rw [ih rest f (by simp only [List.length_append] at hf ⊢; omega)]
      rfl
theorem joinLines_absorb (sep x a : List Char) (rest : List (List Char)) :
    joinLines sep ((x ++ sep ++ a) :: rest) = x ++ sep ++ joinLines sep (a :: rest) := by
  cases rest with
  | nil => rfl
  | cons b r => simp [joinLines, List.append_assoc]

theorem intercalate_go_data (s : String) (l : List String) : ∀ acc : String,
    (String.intercalate.go acc s l).data = joinLines s.data (acc.data :: l.map String.data) := by
  induction l with
  | nil => intro acc; rfl
  | cons a as ih =>
    intro acc
    rw [String.intercalate.go, ih]
    simp only [String.data_append, List.map_cons]
    rw [joinLines_absorb]
    rfl

theorem intercalate_data (s : String) (l : List String) :
    (String.intercalate s l).data = joinLines s.data (l.map String.data) := by
  cases l with
  | nil => rfl
  | cons a as => exact intercalate_go_data s as a

theorem parseValue_skip (f : Nat) (lead cs : List Char)
    (h : ∀ c ∈ lead, isJsonWhitespace c = true) :
    parseValue f (lead ++ cs) = parseValue f cs := by
  cases f with
  | zero => rfl
  | succ f => simp only [parseValue, skipWhitespace_append lead cs h]

theorem isDigit_head (c : Char) (h : c.isDigit = true) :
    isJsonWhitespace c = false ∧ c ≠ ']' ∧ c ≠ '"' ∧ c ≠ '[' ∧ c ≠ '\x7b' ∧ c ≠ 'n' ∧ c ≠ 't'
      ∧ c ≠ 'f' := by
  simp only [Char.isDigit, Bool.and_eq_true, decide_eq_true_eq] at h
  have h1 : 48 ≤ c.toNat := h.1
  have h2 : c.toNat ≤ 57 := h.2
  refine ⟨?_, ?_, ?_, ?_, ?_, ?_, ?_, ?_⟩
  · simp only [isJsonWhitespace, Bool.or_eq_false_iff, beq_eq_false_iff_ne, ne_eq]
    refine ⟨⟨⟨?_, ?_⟩, ?_⟩, ?_⟩ <;> (intro hc; subst hc; revert h1 h2; decide)
  all_goals (intro hc; subst hc; revert h1 h2; decide)

/-- The first character of a number literal. -/
theorem toString_int_head (n : Int) :
    ∃ c t, (toString n).data = c :: t ∧ (c.isDigit = true ∨ c = '-') := by
  rw [toString_int_data]
  cases n with
  | ofNat m =>
    obtain ⟨hne, hdig, _, _⟩ := toDigits_spec m
    cases h : Nat.toDigits 10 m with
    | nil => exact absurd h hne
    | cons c t =>
      refine ⟨c, t, h, Or.inl (hdig c ?_)⟩
      rw [h]; exact List.mem_cons_self _ _
  | negSucc m => exact ⟨'-', _, rfl, Or.inr rfl⟩

/-- The first character of a serialised value is no white space and closes nothing. -/
theorem stringifyAt_head (v : JsVal) (ind s : String) (h : stringifyAt v ind = some s) :
    ∃ c t, s.data = c :: t ∧ isJsonWhitespace c = false ∧ c ≠ ']' := by
  cases v with
  | undefined => simp [stringifyAt] at h
  | null =>
    simp only [stringifyAt, Option.some.injEq] at h; subst h
    exact ⟨'n', _, rfl, by decide, by decide⟩
  | nan =>
    simp only [stringifyAt, Option.some.injEq] at h; subst h
    exact ⟨'n', _, rfl, by decide, by decide⟩
  | bool b =>
    simp only [stringifyAt, Option.some.injEq] at h; subst h
    cases b
    · exact ⟨'f', _, rfl, by decide, by decide⟩
    · exact ⟨'t', _, rfl, by decide, by decide⟩
  | num n =>
    simp only [stringifyAt, Option.some.injEq] at h; subst h
    obtain ⟨c, t, hct, hc⟩ := toString_int_head n
    refine ⟨c, t, hct, ?_⟩
    rcases hc with hc | hc
    · exact ⟨(isDigit_head c hc).1, (isDigit_head c hc).2.1⟩
    · subst hc; exact ⟨by decide, by decide⟩
  | str t =>
    simp only [stringifyAt, Option.some.injEq] at h; subst h
    exact ⟨'"', _, quote_data t, by decide, by decide⟩
  | arr items =>
    simp only [stringifyAt] at h
    split at h <;> simp only [Option.some.injEq] at h <;> subst h
    · exact ⟨'[', _, rfl, by decide, by decide⟩
    · exact ⟨'[', _, by simp only [String.data_append]; rfl, by decide, by decide⟩
  | obj props =>
    simp only [stringifyAt] at h
    split at h <;> simp only [Option.some.injEq] at h <;> subst h
    · exact ⟨'\x7b', _, rfl, by decide, by decide⟩
    · exact ⟨'\x7b', _, by simp only [String.data_append]; rfl, by decide, by decide⟩
theorem parseValue_lit_null (f : Nat) (rest : List Char) :
    parseValue (f + 1) ('n' :: 'u' :: 'l' :: 'l' :: rest) = some (.null, rest) := rfl

theorem parseValue_lit_true (f : Nat) (rest : List Char) :
    parseValue (f + 1) ('t' :: 'r' :: 'u' :: 'e' :: rest) = some (.bool true, rest) := rfl

theorem parseValue_lit_false (f : Nat) (rest : List Char) :
    parseValue (f + 1) ('f' :: 'a' :: 'l' :: 's' :: 'e' :: rest) = some (.bool false, rest) := rfl

theorem parseValue_empty_arr (f : Nat) (rest : List Char) :
    parseValue (f + 1) ('[' :: ']' :: rest) = some (.arr [], rest) := rfl

theorem parseValue_empty_obj (f : Nat) (rest : List Char) :
    parseValue (f + 1) ('\x7b' :: '\x7d' :: rest) = some (.obj [], rest) := rfl

theorem parseValue_str (f : Nat) (Y : List Char) :
    parseValue (f + 1) ('"' :: Y) =
      (parseStringBody (f + 1) Y).map fun r => (JsVal.str (String.mk r.1), r.2) := rfl

theorem parseValue_arr (f : Nat) (Y : List Char) (h : (skipWhitespace Y).head? ≠ some ']') :
    parseValue (f + 1) ('[' :: Y) = (parseElems f Y).map fun r => (JsVal.arr r.1, r.2) := by
  have e : parseValue (f + 1) ('[' :: Y) =
      if (skipWhitespace Y).head? = some ']' then
        some (.arr [], (skipWhitespace Y).tail)
      else (parseElems f Y).map fun r => (JsVal.arr r.1, r.2) := rfl
  rw [e, if_neg h]

theorem parseValue_obj (f : Nat) (Y : List Char) (h : (skipWhitespace Y).head? ≠ some '\x7d') :
    parseValue (f + 1) ('\x7b' :: Y) =
      (parseMembers f Y).map fun r => (JsVal.obj (buildObject r.1), r.2) := by
  have e : parseValue (f + 1) ('\x7b' :: Y) =
      if (skipWhitespace Y).head? = some '\x7d' then
        some (.obj [], (skipWhitespace Y).tail)
      else (parseMembers f Y).map fun r => (JsVal.obj (buildObject r.1), r.2) := rfl
  rw [e, if_neg h]

theorem parseValue_number (f : Nat) (c : Char) (Y : List Char)
    (h : c.isDigit = true ∨ c = '-') :
    parseValue (f + 1) (c :: Y) = parseNumber (c :: Y) := by
  have hc : isJsonWhitespace c = false ∧ c ≠ '"' ∧ c ≠ '[' ∧ c ≠ '\x7b' ∧ c ≠ 'n' ∧ c ≠ 't'
      ∧ c ≠ 'f' := by
    rcases h with h | h
    · have := isDigit_head c h
      exact ⟨this.1, this.2.2.1, this.2.2.2.1, this.2.2.2.2.1, this.2.2.2.2.2.1,
        this.2.2.2.2.2.2.1, this.2.2.2.2.2.2.2⟩
    · subst h; decide
  obtain ⟨h0, h1, h2, h3, h4, h5, h6⟩ := hc
  simp only [parseValue, skipWhitespace_cons c Y h0, h1, h2, h3, h4, h5, h6, if_false]

theorem parseElems_step (f : Nat) (cs : List Char) (v : JsVal) (after : List Char)
    (h : parseValue f cs = some (v, after)) :
    parseElems (f + 1) cs =
      match skipWhitespace after with
      | [] => none
      | c :: rest' =>
        if c = ',' then (parseElems f rest').map fun r => (v :: r.1, r.2)
        else if c = ']' then some ([v], rest')
        else none := by
  simp only [parseElems, h]

theorem parseMembers_step (f : Nat) (lead key after₁ after₂ after : List Char) (v : JsVal)
    (hl : ∀ c ∈ lead, isJsonWhitespace c = true)
    (hk : parseStringBody (f + 1) after₁ = some (key, ':' :: ' ' :: after₂))
    (hv : parseValue f after₂ = some (v, after)) :
    parseMembers (f + 1) (lead ++ '"' :: after₁) =
      match skipWhitespace after with
      | [] => none
      | c :: rest₄ =>
        if c = ',' then
          (parseMembers f rest₄).map fun r => ((String.mk key, v) :: r.1, r.2)
        else if c = '\x7d' then some ([(String.mk key, v)], rest₄)
        else none := by
  have hs : skipWhitespace (lead ++ '"' :: after₁) = '"' :: after₁ := by
    rw [skipWhitespace_append _ _ hl]; rfl
  have hc : skipWhitespace (':' :: ' ' :: after₂) = ':' :: ' ' :: after₂ := rfl
  have hv' : parseValue f (' ' :: after₂) = some (v, after) := by
    rw [← hv]
    exact parseValue_skip f [' '] after₂ (by simp [isJsonWhitespace])
  simp only [parseMembers, hs, hk, hc, hv', if_true]
theorem stringifyAt_isSome (v : JsVal) (ind : String) (h : IsJson v) :
    ∃ s, stringifyAt v ind = some s := by
  cases v with
  | undefined => simp [IsJson] at h
  | arr items => simp only [stringifyAt]; split <;> exact ⟨_, rfl⟩
  | obj props => simp only [stringifyAt]; split <;> exact ⟨_, rfl⟩
  | _ => exact ⟨_, rfl⟩

theorem stringifyItems_cons_data (v : JsVal) (vs : List JsVal) (ind s : String)
    (h : stringifyAt v ind = some s) :
    (stringifyItems (v :: vs) ind).map String.data
      = s.data :: (stringifyItems vs ind).map String.data := by
  simp [stringifyItems, h]

theorem stringifyProps_cons_data (k : String) (v : JsVal) (ps : List (String × JsVal))
    (ind s : String) (h : stringifyAt v ind = some s) :
    (stringifyProps ((k, v) :: ps) ind).map String.data
      = ('"' :: (quotedBody k.data ++ '"' :: ':' :: ' ' :: s.data))
        :: (stringifyProps ps ind).map String.data := by
  simp [stringifyProps, h, String.data_append, quote_data]

theorem stringifyAt_arr_data (v : JsVal) (vs : List JsVal) (ind s : String)
    (h : stringifyAt (.arr (v :: vs)) ind = some s) :
    s.data = '[' :: (('\n' :: (ind ++ "  ").data) ++
      (joinLines (',' :: '\n' :: (ind ++ "  ").data)
        ((stringifyItems (v :: vs) (ind ++ "  ")).map String.data)
        ++ ('\n' :: (ind.data ++ [']'])))) := by
  simp only [stringifyAt, stringifyItems, Option.some.injEq] at h
  subst h
  simp only [String.data_append, intercalate_data, stringifyItems]
  simp [List.append_assoc]

theorem stringifyAt_obj_data (k : String) (v : JsVal) (ps : List (String × JsVal))
    (ind s sv : String) (hv : stringifyAt v (ind ++ "  ") = some sv)
    (h : stringifyAt (.obj ((k, v) :: ps)) ind = some s) :
    s.data = '\x7b' :: (('\n' :: (ind ++ "  ").data) ++
      (joinLines (',' :: '\n' :: (ind ++ "  ").data)
        ((stringifyProps ((k, v) :: ps) (ind ++ "  ")).map String.data)
        ++ ('\n' :: (ind.data ++ ['\x7d'])))) := by
  simp only [stringifyAt, stringifyProps, hv, Option.some.injEq] at h
  subst h
  simp only [String.data_append, intercalate_data, stringifyProps, hv]
  simp [List.append_assoc]
theorem insertIndexKey_last (i : Nat) (k : String) (v : JsVal) :
    ∀ pre : List (String × JsVal), (∀ p ∈ pre, keyLe p.1 k) → arrayIndex? k = some i →
      insertIndexKey i k v pre = pre ++ [(k, v)] := by
  intro pre
  induction pre with
  | nil => intro _ _; rfl
  | cons p t ih =>
    intro h hk
    obtain ⟨k', v'⟩ := p
    have hp := h (k', v') (List.mem_cons_self _ _)
    simp only [keyLe, hk] at hp
    cases hj : arrayIndex? k' with
    | none => simp [hj] at hp
    | some j =>
      simp only [hj] at hp
      have hlt : ¬ i < j := by omega
      simp only [insertIndexKey, hj, hlt, if_false, List.cons_append]
      rw [ih (fun q hq => h q (List.mem_cons_of_mem _ hq)) hk]

theorem setProp_last (pre : List (String × JsVal)) (k : String) (v : JsVal)
    (hnew : ∀ p ∈ pre, p.1 ≠ k) (hle : ∀ p ∈ pre, keyLe p.1 k) :
    setProp pre k v = pre ++ [(k, v)] := by
  have hany : pre.any (fun p => p.1 == k) = false := by
    simp only [List.any_eq_false, beq_iff_eq]
    exact hnew
  simp only [setProp, hany, Bool.false_eq_true, if_false]
  cases hk : arrayIndex? k with
  | none => rfl
  | some i => exact insertIndexKey_last i k v pre hle hk

theorem foldl_setProp_ordered : ∀ (suffix pre : List (String × JsVal)),
    OrderedKeys (pre ++ suffix) →
    suffix.foldl (fun o m => setProp o m.1 m.2) pre = pre ++ suffix := by
  intro suffix
  induction suffix with
  | nil => intro pre _; simp
  | cons m t ih =>
    intro pre h
    obtain ⟨k, v⟩ := m
    have h' : OrderedKeys ((pre ++ [(k, v)]) ++ t) := by
      simpa [List.append_assoc] using h
    obtain ⟨hnd, hpw⟩ := h
    simp only [List.map_append, List.map_cons] at hnd hpw
    have hnew : ∀ p ∈ pre, p.1 ≠ k := by
      intro p hp hpk
      have h1 := (List.nodup_append.1 hnd).2.2
      exact h1 (List.mem_map_of_mem Prod.fst hp) (by rw [hpk]; exact List.mem_cons_self _ _)
    have hle : ∀ p ∈ pre, keyLe p.1 k := by
      intro p hp
      have h1 := (List.pairwise_append.1 hpw).2.2
      exact h1 p.1 (List.mem_map_of_mem Prod.fst hp) k (List.mem_cons_self _ _)
    simp only [List.foldl_cons]
    rw [setProp_last pre k v hnew hle, ih _ h']
    simp [List.append_assoc]

theorem buildObject_ordered (props : List (String × JsVal)) (h : OrderedKeys props) :
    buildObject props = props := by
  have := foldl_setProp_ordered props [] (by simpa using h)
  simpa [buildObject] using this
theorem indent_step (ind : String) (h : ∀ c ∈ ind.data, isJsonWhitespace c = true) :
    ∀ c ∈ (ind ++ "  ").data, isJsonWhitespace c = true := by
  intro c hc
  simp only [String.data_append, List.mem_append] at hc
  rcases hc with hc | hc
  · exact h c hc
  · have : c = ' ' := by
      have h2 : c ∈ [' ', ' '] := hc
      simpa using h2
    subst this; rfl

theorem lead_step (ind : String) (h : ∀ c ∈ ind.data, isJsonWhitespace c = true) :
    ∀ c ∈ '\n' :: ind.data, isJsonWhitespace c = true := by
  intro c hc
  rcases List.mem_cons.1 hc with hc | hc
  · subst hc; rfl
  · exact h c hc

theorem joinLines_cons_cons (sep a b : List Char) (l : List (List Char)) :
    joinLines sep (a :: b :: l) = a ++ (sep ++ joinLines sep (b :: l)) := by
  simp [joinLines, List.append_assoc]

theorem joinLines_head (sep : List Char) (c : Char) (t : List Char) (l : List (List Char)) :
    ∃ X, joinLines sep ((c :: t) :: l) = c :: X := by
  cases l with
  | nil => exact ⟨t, rfl⟩
  | cons b r => exact ⟨_, by rw [joinLines_cons_cons]; rfl⟩

theorem skipWhitespace_closing (ind : String) (h : ∀ c ∈ ind.data, isJsonWhitespace c = true)
    (c : Char) (hc : isJsonWhitespace c = false) (rest : List Char) :
    skipWhitespace ('\n' :: (ind.data ++ c :: rest)) = c :: rest := by
  have e : '\n' :: (ind.data ++ c :: rest) = ('\n' :: ind.data) ++ c :: rest := rfl
  rw [e, skipWhitespace_append _ _ (lead_step ind h), skipWhitespace_cons c rest hc]

mutual
theorem parseValue_stringifyAt : ∀ (v : JsVal), IsJson v → ∀ (ind s : String),
    (∀ c ∈ ind.data, isJsonWhitespace c = true) → stringifyAt v ind = some s →
    ∀ (rest : List Char) (f : Nat), startsField rest = true → (s.data ++ rest).length < f →
    parseValue f (s.data ++ rest) = some (v, rest)
  | .undefined, h, _, _, _, _, _, _, _, _ => by simp [IsJson] at h
  | .nan, h, _, _, _, _, _, _, _, _ => by simp [IsJson] at h
  | .null, _, _, s, _, hs, rest, f, _, hf => by
    simp only [stringifyAt, Option.some.injEq] at hs; subst hs
    obtain ⟨f, rfl⟩ : ∃ f', f = f' + 1 := ⟨f - 1, by omega⟩
    exact parseValue_lit_null f rest
  | .bool b, _, _, s, _, hs, rest, f, _, hf => by
    simp only [stringifyAt, Option.some.injEq] at hs; subst hs
    obtain ⟨f, rfl⟩ : ∃ f', f = f' + 1 := ⟨f - 1, by omega⟩
    cases b
    · exact parseValue_lit_false f rest
    · exact parseValue_lit_true f rest
  | .num n, _, _, s, _, hs, rest, f, hrest, hf => by
    simp only [stringifyAt, Option.some.injEq] at hs; subst hs
    obtain ⟨f, rfl⟩ : ∃ f', f = f' + 1 := ⟨f - 1, by omega⟩
    obtain ⟨c, t, hct, hc⟩ := toString_int_head n
    have e : (toString n).data ++ rest = c :: (t ++ rest) := by rw [hct]; rfl
    rw [e, parseValue_number f c _ hc, ← e]
    exact parseNumber_toString n rest hrest
  | .str t, _, _, s, _, hs, rest, f, _, hf => by
    simp only [stringifyAt, Option.some.injEq] at hs; subst hs
    obtain ⟨f, rfl⟩ : ∃ f', f = f' + 1 := ⟨f - 1, by omega⟩
    have e : (quote t).data ++ rest = '"' :: (quotedBody t.data ++ '"' :: rest) := by
      rw [quote_data]; simp
    rw [e] at hf ⊢
    rw [parseValue_str, parseStringBody_quotedBody t.data rest (f + 1)
      (by simp only [List.length_cons] at hf ⊢; omega)]
    rfl
  | .arr [], _, _, s, _, hs, rest, f, _, hf => by
    simp only [stringifyAt, stringifyItems, Option.some.injEq] at hs; subst hs
    obtain ⟨f, rfl⟩ : ∃ f', f = f' + 1 := ⟨f - 1, by omega⟩
    exact parseValue_empty_arr f rest
  | .arr (v :: vs), h, ind, s, hind, hs, rest, f, _, hf => by
    obtain ⟨f, rfl⟩ : ∃ f', f = f' + 1 := ⟨f - 1, by omega⟩
    simp only [IsJson] at h
    have hv : IsJson v := by simp only [AllJson] at h; exact h.1
    obtain ⟨sv, hsv⟩ := stringifyAt_isSome v (ind ++ "  ") hv
    obtain ⟨c, t, hct, hws, hbr⟩ := stringifyAt_head v _ _ hsv
    have e : s.data ++ rest = '[' :: (('\n' :: (ind ++ "  ").data) ++
        (joinLines (',' :: '\n' :: (ind ++ "  ").data)
          ((stringifyItems (v :: vs) (ind ++ "  ")).map String.data)
          ++ ('\n' :: (ind.data ++ ']' :: rest)))) := by
      rw [stringifyAt_arr_data v vs ind s hs]; simp [List.append_assoc]
    rw [e] at hf ⊢
    have hhead : (skipWhitespace (('\n' :: (ind ++ "  ").data) ++
        (joinLines (',' :: '\n' :: (ind ++ "  ").data)
          ((stringifyItems (v :: vs) (ind ++ "  ")).map String.data)
          ++ ('\n' :: (ind.data ++ ']' :: rest))))).head? ≠ some ']' := by
      rw [skipWhitespace_append _ _ (lead_step _ (indent_step ind hind)),
        stringifyItems_cons_data v vs _ sv hsv, hct]
      obtain ⟨X, hX⟩ := joinLines_head (',' :: '\n' :: (ind ++ "  ").data) c t
        ((stringifyItems vs (ind ++ "  ")).map String.data)
      rw [hX, List.cons_append, skipWhitespace_cons c _ hws]
      simpa using hbr
    rw [parseValue_arr f _ hhead,
      parseElems_stringifyItems (v :: vs) h (by simp) (ind ++ "  ") (indent_step ind hind)
        ('\n' :: (ind ++ "  ").data) ('\n' :: (ind.data ++ ']' :: rest)) rest f
        (lead_step _ (indent_step ind hind)) (by simp) rfl
        (skipWhitespace_closing ind hind ']' (by decide) rest)
        (by simp only [List.length_cons] at hf ⊢; omega)]
    rfl
  | .obj [], _, _, s, _, hs, rest, f, _, hf => by
    simp only [stringifyAt, stringifyProps, Option.some.injEq] at hs; subst hs
    obtain ⟨f, rfl⟩ : ∃ f', f = f' + 1 := ⟨f - 1, by omega⟩
    exact parseValue_empty_obj f rest
  | .obj ((k, v) :: ps), h, ind, s, hind, hs, rest, f, _, hf => by
    obtain ⟨f, rfl⟩ : ∃ f', f = f' + 1 := ⟨f - 1, by omega⟩
    simp only [IsJson] at h
    obtain ⟨hall, hord⟩ := h
    have hv : IsJson v := by simp only [AllJsonProps] at hall; exact hall.1
    obtain ⟨sv, hsv⟩ := stringifyAt_isSome v (ind ++ "  ") hv
    have e : s.data ++ rest = '\x7b' :: (('\n' :: (ind ++ "  ").data) ++
        (joinLines (',' :: '\n' :: (ind ++ "  ").data)
          ((stringifyProps ((k, v) :: ps) (ind ++ "  ")).map String.data)
          ++ ('\n' :: (ind.data ++ '\x7d' :: rest)))) := by
      rw [stringifyAt_obj_data k v ps ind s sv hsv hs]; simp [List.append_assoc]
    rw [e] at hf ⊢
    have hhead : (skipWhitespace (('\n' :: (ind ++ "  ").data) ++
        (joinLines (',' :: '\n' :: (ind ++ "  ").data)
          ((stringifyProps ((k, v) :: ps) (ind ++ "  ")).map String.data)
          ++ ('\n' :: (ind.data ++ '\x7d' :: rest))))).head? ≠ some '\x7d' := by
      rw [skipWhitespace_append _ _ (lead_step _ (indent_step ind hind)),
        stringifyProps_cons_data k v ps _ sv hsv]
      obtain ⟨X, hX⟩ := joinLines_head (',' :: '\n' :: (ind ++ "  ").data) '"'
        (quotedBody k.data ++ '"' :: ':' :: ' ' :: sv.data)
        ((stringifyProps ps (ind ++ "  ")).map String.data)
      rw [hX, List.cons_append, skipWhitespace_cons '"' _ (by decide)]
      simp
    rw [parseValue_obj f _ hhead,
      parseMembers_stringifyProps ((k, v) :: ps) hall (by simp) (ind ++ "  ")
        (indent_step ind hind)
        ('\n' :: (ind ++ "  ").data) ('\n' :: (ind.data ++ '\x7d' :: rest)) rest f
        (lead_step _ (indent_step ind hind)) (by simp) rfl
        (skipWhitespace_closing ind hind '\x7d' (by decide) rest)
        (by simp only [List.length_cons] at hf ⊢; omega)]
    simp only [Option.map_some', buildObject_ordered _ hord]
theorem parseElems_stringifyItems : ∀ (items : List JsVal), AllJson items → items ≠ [] →
    ∀ (ind : String), (∀ c ∈ ind.data, isJsonWhitespace c = true) →
    ∀ (lead closing rest : List Char) (f : Nat),
    (∀ c ∈ lead, isJsonWhitespace c = true) → lead ≠ [] → startsField closing = true →
    skipWhitespace closing = ']' :: rest →
    (lead ++ (joinLines (',' :: '\n' :: ind.data) ((stringifyItems items ind).map String.data)
      ++ closing)).length < f →
    parseElems f (lead ++ (joinLines (',' :: '\n' :: ind.data)
      ((stringifyItems items ind).map String.data) ++ closing)) = some (items, rest)
  | [], _, hne, _, _, _, _, _, _, _, _, _, _, _ => absurd rfl hne
  | [v], h, _, ind, hind, lead, closing, rest, f, hlead, hlne, hcl, hskip, hf => by
    obtain ⟨f, rfl⟩ : ∃ f', f = f' + 1 := ⟨f - 1, by omega⟩
    have hv : IsJson v := by simp only [AllJson] at h; exact h.1
    obtain ⟨sv, hsv⟩ := stringifyAt_isSome v ind hv
    have e : joinLines (',' :: '\n' :: ind.data) ((stringifyItems [v] ind).map String.data)
        = sv.data := by
      rw [stringifyItems_cons_data v [] ind sv hsv]; rfl
    rw [e] at hf ⊢
    have hl : 0 < lead.length := List.length_pos.2 hlne
    have hpv : parseValue f (lead ++ (sv.data ++ closing)) = some (v, closing) := by
      rw [parseValue_skip f lead _ hlead]
      exact parseValue_stringifyAt v hv ind sv hind hsv closing f hcl
        (by simp only [List.length_append] at hf ⊢; omega)
    rw [parseElems_step f _ v closing hpv, hskip]
    rfl
  | v :: v' :: vs, h, _, ind, hind, lead, closing, rest, f, hlead, hlne, hcl, hskip, hf => by
    obtain ⟨f, rfl⟩ : ∃ f', f = f' + 1 := ⟨f - 1, by omega⟩
    have hv : IsJson v := by simp only [AllJson] at h; exact h.1
    have hvs : AllJson (v' :: vs) := by
      have h2 : IsJson v ∧ AllJson (v' :: vs) := by simpa only [AllJson] using h
      exact h2.2
    obtain ⟨sv, hsv⟩ := stringifyAt_isSome v ind hv
    have e : joinLines (',' :: '\n' :: ind.data)
        ((stringifyItems (v :: v' :: vs) ind).map String.data) ++ closing
        = sv.data ++ (',' :: (('\n' :: ind.data) ++
            (joinLines (',' :: '\n' :: ind.data)
              ((stringifyItems (v' :: vs) ind).map String.data) ++ closing))) := by
      rw [stringifyItems_cons_data v (v' :: vs) ind sv hsv]
      simp only [stringifyItems, List.map_cons, joinLines_cons_cons]
      simp [List.append_assoc]
    rw [e] at hf ⊢
    have hl : 0 < lead.length := List.length_pos.2 hlne
    have hpv : parseValue f (lead ++ (sv.data ++ (',' :: (('\n' :: ind.data) ++
            (joinLines (',' :: '\n' :: ind.data)
              ((stringifyItems (v' :: vs) ind).map String.data) ++ closing)))))
        = some (v, ',' :: (('\n' :: ind.data) ++
            (joinLines (',' :: '\n' :: ind.data)
              ((stringifyItems (v' :: vs) ind).map String.data) ++ closing))) := by
      rw [parseValue_skip f lead _ hlead]
      exact parseValue_stringifyAt v hv ind sv hind hsv _ f rfl
        (by simp only [List.length_append] at hf ⊢; omega)
    rw [parseElems_step f _ v _ hpv, skipWhitespace_cons ',' _ (by decide)]
    simp only [if_true]
    rw [parseElems_stringifyItems (v' :: vs) hvs (by simp) ind hind ('\n' :: ind.data) closing
      rest f (lead_step ind hind) (by simp) hcl hskip
      (by simp only [List.length_append, List.length_cons] at hf ⊢; omega)]
    rfl
theorem parseMembers_stringifyProps : ∀ (props : List (String × JsVal)), AllJsonProps props →
    props ≠ [] →
    ∀ (ind : String), (∀ c ∈ ind.data, isJsonWhitespace c = true) →
    ∀ (lead closing rest : List Char) (f : Nat),
    (∀ c ∈ lead, isJsonWhitespace c = true) → lead ≠ [] → startsField closing = true →
    skipWhitespace closing = '\x7d' :: rest →
    (lead ++ (joinLines (',' :: '\n' :: ind.data) ((stringifyProps props ind).map String.data)
      ++ closing)).length < f →
    parseMembers f (lead ++ (joinLines (',' :: '\n' :: ind.data)
      ((stringifyProps props ind).map String.data) ++ closing)) = some (props, rest)
  | [], _, hne, _, _, _, _, _, _, _, _, _, _, _ => absurd rfl hne
  | [(k, v)], h, _, ind, hind, lead, closing, rest, f, hlead, hlne, hcl, hskip, hf => by
    obtain ⟨f, rfl⟩ : ∃ f', f = f' + 1 := ⟨f - 1, by omega⟩
    have hv : IsJson v := by simp only [AllJsonProps] at h; exact h.1
    obtain ⟨sv, hsv⟩ := stringifyAt_isSome v ind hv
    have e : lead ++ (joinLines (',' :: '\n' :: ind.data)
        ((stringifyProps [(k, v)] ind).map String.data) ++ closing)
        = lead ++ '"' :: (quotedBody k.data ++ '"' :: ':' :: ' ' :: (sv.data ++ closing)) := by
      rw [stringifyProps_cons_data k v [] ind sv hsv]
      simp [stringifyProps, joinLines, List.append_assoc]
    rw [e] at hf ⊢
    have hl : 0 < lead.length := List.length_pos.2 hlne
    have hk : parseStringBody (f + 1)
        (quotedBody k.data ++ '"' :: ':' :: ' ' :: (sv.data ++ closing))
        = some (k.data, ':' :: ' ' :: (sv.data ++ closing)) :=
      parseStringBody_quotedBody k.data _ (f + 1)
        (by simp only [List.length_append, List.length_cons] at hf ⊢; omega)
    have hpv : parseValue f (sv.data ++ closing) = some (v, closing) :=
      parseValue_stringifyAt v hv ind sv hind hsv closing f hcl
        (by simp only [List.length_append, List.length_cons] at hf ⊢; omega)
    rw [parseMembers_step f lead k.data _ _ closing v hlead hk hpv, hskip]
    rfl
  | (k, v) :: p :: ps, h, _, ind, hind, lead, closing, rest, f, hlead, hlne, hcl, hskip,
      hf => by
    obtain ⟨f, rfl⟩ : ∃ f', f = f' + 1 := ⟨f - 1, by omega⟩
    have hv : IsJson v := by simp only [AllJsonProps] at h; exact h.1
    have hps : AllJsonProps (p :: ps) := by
      have h2 : IsJson v ∧ AllJsonProps (p :: ps) := by simpa only [AllJsonProps] using h
      exact h2.2
    obtain ⟨k', v'⟩ := p
    have hv' : IsJson v' := by simp only [AllJsonProps] at hps; exact hps.1
    obtain ⟨sv, hsv⟩ := stringifyAt_isSome v ind hv
    obtain ⟨sv', hsv'⟩ := stringifyAt_isSome v' ind hv'
    have e : lead ++ (joinLines (',' :: '\n' :: ind.data)
        ((stringifyProps ((k, v) :: (k', v') :: ps) ind).map String.data) ++ closing)
        = lead ++ '"' :: (quotedBody k.data ++ '"' :: ':' :: ' ' :: (sv.data ++
          (',' :: (('\n' :: ind.data) ++
            (joinLines (',' :: '\n' :: ind.data)
              ((stringifyProps ((k', v') :: ps) ind).map String.data) ++ closing))))) := by
      rw [stringifyProps_cons_data k v _ ind sv hsv,
        stringifyProps_cons_data k' v' _ ind sv' hsv', joinLines_cons_cons]
      simp [List.append_assoc]
    rw [e] at hf ⊢
    have hl : 0 < lead.length := List.length_pos.2 hlne
    have hk := parseStringBody_quotedBody k.data (':' :: ' ' :: (sv.data ++
          (',' :: (('\n' :: ind.data) ++
            (joinLines (',' :: '\n' :: ind.data)
              ((stringifyProps ((k', v') :: ps) ind).map String.data) ++ closing))))) (f + 1)
        (by simp only [List.length_append, List.length_cons] at hf ⊢; omega)
    have hpv := parseValue_stringifyAt v hv ind sv hind hsv (',' :: (('\n' :: ind.data) ++
            (joinLines (',' :: '\n' :: ind.data)
              ((stringifyProps ((k', v') :: ps) ind).map String.data) ++ closing))) f rfl
        (by simp only [List.length_append, List.length_cons] at hf ⊢; omega)
    rw [parseMembers_step f lead k.data _ _ _ v hlead hk hpv,
      skipWhitespace_cons ',' _ (by decide)]
    simp only [if_true]
    rw [parseMembers_stringifyProps ((k', v') :: ps) hps (by simp) ind hind ('\n' :: ind.data)
      closing rest f (lead_step ind hind) (by simp) hcl hskip
      (by simp only [List.length_append, List.length_cons] at hf ⊢; omega)]
    rfl
end
set_option maxRecDepth 20000

/-- C1. For a transaction log and a name `n` of `CONTRACTS`, let `tx` be the
last entry in log order that is a `CREATE` of `n`. Every record
`extractAddressesForChain` returns maps `n` to the `contractAddress` of `tx`;
and for a configured chain and a log whose entries are objects a record is
returned. -/
theorem extractAddressesForChain_last_create_wins
    (parse : String → Option JsVal) (w : World) (c text : String) (broadcast : JsVal)
    (pre post : List JsVal) (tx : JsVal) (n : String)
    (hfile : w.fs.files (broadcastPath c) = some text)
    (hparse : parse text = some broadcast)
    (htxs : broadcast.getProp "transactions" = .ok (.arr (pre ++ tx :: post)))
    (hn : n ∈ CONTRACTS)
    (htx : isCreateOf n tx = true)
    (hpost : ∀ t ∈ post, isCreateOf n t = false) :
    (∀ r, (extractAddressesForChain parse c w).1 = .ok (some r) →
        r.contracts.lookup n = some (addressOf tx)) ∧
    (c ∈ CHAINS.map Prod.fst → (∀ t ∈ pre ++ tx :: post, t.isObject = true) →
        ∃ r, (extractAddressesForChain parse c w).1 = .ok (some r)) := by
  have hcc := collectContracts_arr broadcast _ htxs
  constructor
  · intro r hr
    cases hcol : collectContracts broadcast with
    | error e =>
      rw [extractAddressesForChain_log parse c w text broadcast hfile hparse, hcol] at hr
      cases hr
    | ok contracts =>
      obtain ⟨hrc, -⟩ :=
        extractAddressesForChain_record parse c w text broadcast contracts r hfile hparse hcol hr
      rw [hrc]
      rw [hcc] at hcol
      exact collectFrom_last n contracts pre post tx hn hcol htx hpost
  · intro hc hobj
    obtain ⟨contracts, hcol⟩ := collectFrom_objects [] _ hobj
    have hlast := collectFrom_last n contracts pre post tx hn hcol htx hpost
    have hlen : contracts.length ≠ 0 := by
      intro h0
      rw [List.length_eq_zero.mp h0] at hlast
      cases hlast
    obtain ⟨⟨c', d⟩, hd, rfl⟩ := List.mem_map.mp hc
    rw [extractAddressesForChain_log parse _ w text broadcast hfile hparse, hcc, hcol]
    simp only [beq_iff_eq, hlen, if_false, chainsField_configured _ d hd]
    exact ⟨_, rfl⟩

/-- Witness for C1: in the sample log `CourseFactory` is created at `0x01`
and later at `0x04`; the record of chain 84532 holds `0x04`. -/
theorem extractAddressesForChain_last_create_wins_witness :
    (∀ r, (extractAddressesForChain sampleParse "84532"
          (sampleWorld [(broadcastPath "84532", redeployLogText)])).1 = .ok (some r) →
        r.contracts.lookup "CourseFactory" = some (.str "0x04")) ∧
    ∃ r, (extractAddressesForChain sampleParse "84532"
          (sampleWorld [(broadcastPath "84532", redeployLogText)])).1 = .ok (some r) :=
  have h := extractAddressesForChain_last_create_wins sampleParse
    (sampleWorld [(broadcastPath "84532", redeployLogText)]) "84532" redeployLogText redeployLog
    [sampleTx "CREATE" "CourseFactory" "0x01", sampleTx "CREATE2" "CourseNFT" "0x02",
      sampleTx "CREATE" "Counter" "0x03"]
    [] (sampleTx "CREATE" "CourseFactory" "0x04") "CourseFactory"
    (by rfl) (by rfl) (by rfl) (by decide) (by rfl) (by simp)
  ⟨h.1, h.2 (by decide) (by simp [sampleTx, JsVal.isObject])⟩


/-- C2. The keys of the `contracts` object built from a transaction log are
exactly the names of `CONTRACTS` that some entry of type `CREATE` carries;
the object is the one built from the known `CREATE` entries alone, so every
other entry adds no key and changes no value; it is the `contracts` of the
record returned; and it is built whenever the entries are objects. -/
theorem extractAddressesForChain_contract_keys
    (parse : String → Option JsVal) (w : World) (c text : String) (broadcast : JsVal)
    (txs : List JsVal)
    (hfile : w.fs.files (broadcastPath c) = some text)
    (hparse : parse text = some broadcast)
    (htxs : broadcast.getProp "transactions" = .ok (.arr txs)) :
    (∀ contracts, collectContracts broadcast = .ok contracts →
      (∀ k, k ∈ contracts.map Prod.fst ↔
        k ∈ CONTRACTS ∧ ∃ t ∈ txs, isCreateOf k t = true) ∧
      collectFrom [] (txs.filter isKnownCreate) = .ok contracts ∧
      (∀ r, (extractAddressesForChain parse c w).1 = .ok (some r) →
        r.contracts = contracts)) ∧
    ((∀ t ∈ txs, t.isObject = true) →
      ∃ contracts, collectContracts broadcast = .ok contracts) := by
  have hcc := collectContracts_arr broadcast txs htxs
  constructor
  · intro contracts hcol
    refine ⟨?_, ?_, ?_⟩
    · intro k
      rw [hcc] at hcol
      simpa using collectFrom_keys [] contracts txs hcol k
    · rw [hcc] at hcol
      exact collectFrom_filter [] contracts txs hcol
    · intro r hr
      exact (extractAddressesForChain_record parse c w text broadcast contracts r hfile hparse
        hcol hr).1
  · intro hobj
    rw [hcc]
    exact collectFrom_objects [] txs hobj

/-- Witness for C2: the sample log, whose only known `CREATE` entries are
those of `CourseFactory`. -/
theorem extractAddressesForChain_contract_keys_witness :
    ∃ contracts, collectContracts redeployLog = .ok contracts ∧
      (∀ k, k ∈ contracts.map Prod.fst ↔
        k ∈ CONTRACTS ∧
          ∃ t ∈ [sampleTx "CREATE" "CourseFactory" "0x01", sampleTx "CREATE2" "CourseNFT" "0x02",
            sampleTx "CREATE" "Counter" "0x03", sampleTx "CREATE" "CourseFactory" "0x04"],
            isCreateOf k t = true) :=
  have h := extractAddressesForChain_contract_keys sampleParse
    (sampleWorld [(broadcastPath "84532", redeployLogText)]) "84532" redeployLogText redeployLog
    [sampleTx "CREATE" "CourseFactory" "0x01", sampleTx "CREATE2" "CourseNFT" "0x02",
      sampleTx "CREATE" "Counter" "0x03", sampleTx "CREATE" "CourseFactory" "0x04"]
    (by rfl) (by rfl) (by rfl)
  match h.2 (by simp [sampleTx, JsVal.isObject]) with
  | ⟨contracts, hc⟩ => ⟨contracts, hc, (h.1 contracts hc).1⟩

/-- C4. For a chain identifier `c` with descriptor `d` in `CHAINS`, every
record `extractAddressesForChain` returns has `chainId` equal to
`parseInt(c)`, which is `d.chainId`, `chainName` equal to `d.chainName` and
`explorer` equal to `d.explorer`, and the key `c` is the decimal form of
`d.chainId`; a record is returned for every log whose entries are objects, at
least one of them a `CREATE` of a known contract. -/
theorem extractAddressesForChain_stamps_descriptor
    (parse : String → Option JsVal) (w : World) (c : String) (d : ChainDescriptor)
    (hc : (c, d) ∈ CHAINS) :
    (∀ r, (extractAddressesForChain parse c w).1 = .ok (some r) →
      r.chainId = parseInt c ∧ parseInt c = .num d.chainId ∧
      r.chainName = .str d.chainName ∧ r.explorer = .str d.explorer ∧
      c = toString d.chainId) ∧
    (∀ (text : String) (broadcast : JsVal) (txs : List JsVal),
      w.fs.files (broadcastPath c) = some text → parse text = some broadcast →
      broadcast.getProp "transactions" = .ok (.arr txs) →
      (∀ t ∈ txs, t.isObject = true) → (∃ t ∈ txs, isKnownCreate t = true) →
      ∃ r, (extractAddressesForChain parse c w).1 = .ok (some r)) := by
  have hkey : parseInt c = .num d.chainId ∧ c = toString d.chainId := by
    simp only [CHAINS, List.mem_cons, Prod.mk.injEq, List.mem_singleton, List.not_mem_nil,
      or_false] at hc
    rcases hc with ⟨rfl, rfl⟩ | ⟨rfl, rfl⟩ <;> exact ⟨rfl, rfl⟩
  constructor
  · intro r hr
    rcases extractAddressesForChain_cases parse c w with h | ⟨e, h⟩ |
      ⟨_, _, _, r', _, _, _, _, _, hid, _, hname, hexp, h⟩
    · rw [h] at hr; cases hr
    · rw [h] at hr; cases hr
    · rw [h] at hr
      cases hr
      rw [chainsField_configured c d hc] at hname hexp
      exact ⟨hid, hkey.1, (Except.ok.inj hname).symm, (Except.ok.inj hexp).symm, hkey.2⟩
  · intro text broadcast txs hfile hparse htxs hobj hsome
    obtain ⟨contracts, hcol⟩ := collectFrom_objects [] txs hobj
    obtain ⟨t, ht, hk⟩ := hsome
    obtain ⟨n, hn, hcr⟩ := (isKnownCreate_iff t).mp hk
    have hmem : n ∈ contracts.map Prod.fst :=
      (collectFrom_keys [] contracts txs hcol n).mpr (Or.inr ⟨hn, t, ht, hcr⟩)
    have hlen : contracts.length ≠ 0 := by
      intro h0
      rw [List.length_eq_zero.mp h0] at hmem
      cases hmem
    rw [extractAddressesForChain_log parse c w text broadcast hfile hparse,
      collectContracts_arr broadcast txs htxs, hcol]
    simp only [beq_iff_eq, hlen, if_false, chainsField_configured c d hc]
    exact ⟨_, rfl⟩

/-- Witness for C4: chain 8453 with the sample log. -/
theorem extractAddressesForChain_stamps_descriptor_witness :
    ∃ r, (extractAddressesForChain sampleParse "8453"
          (sampleWorld [(broadcastPath "8453", redeployLogText)])).1 = .ok (some r) ∧
      r.chainId = .num 8453 ∧ r.chainName = .str "Base Mainnet" ∧
      r.explorer = .str "https://base.blockscout.com" :=
  have h := extractAddressesForChain_stamps_descriptor sampleParse
    (sampleWorld [(broadcastPath "8453", redeployLogText)]) "8453"
    ⟨8453, "Base Mainnet", "https://base.blockscout.com"⟩ (by simp [CHAINS])
  match h.2 redeployLogText redeployLog
    [sampleTx "CREATE" "CourseFactory" "0x01", sampleTx "CREATE2" "CourseNFT" "0x02",
      sampleTx "CREATE" "Counter" "0x03", sampleTx "CREATE" "CourseFactory" "0x04"]
    (by rfl) (by rfl) (by rfl) (by simp [sampleTx, JsVal.isObject])
    ⟨sampleTx "CREATE" "CourseFactory" "0x01", by simp, by rfl⟩ with
  | ⟨r, hr⟩ =>
    match h.1 r hr with
    | ⟨h1, h2, h3, h4, _⟩ => ⟨r, hr, h1.trans h2, h3, h4⟩

/-- C6. When `extractAddressesForChain` returns `null` for every configured
chain, `extractAllAddresses` returns and leaves the world, with every file,
as it was. -/
theorem extractAllAddresses_no_write_when_all_absent
    (parse : String → Option JsVal) (w : World)
    (h : ∀ c ∈ objectKeys (CHAINS.map Prod.fst),
      (extractAddressesForChain parse c w).1 = .ok none) :
    extractAllAddresses parse w = (.ok (), w) := by
  rw [objectKeys_CHAINS] at h
  have e1 := extractAddressesForChain_none_world parse "8453" w (h _ (by simp))
  have e2 := extractAddressesForChain_none_world parse "84532" w (h _ (by simp))
  rw [extractAllAddresses_eq, e1]
  simp only [e2]
  rfl

/-- Witness for C6: a world with a registry from an earlier run and a
broadcast file that holds no creation. -/
theorem extractAllAddresses_no_write_when_all_absent_witness :
    extractAllAddresses sampleParse
        (sampleWorld [(addressesPath, "old"), (broadcastPath "8453", callLogText)]) =
      (.ok (), sampleWorld [(addressesPath, "old"), (broadcastPath "8453", callLogText)]) :=
  extractAllAddresses_no_write_when_all_absent sampleParse
    (sampleWorld [(addressesPath, "old"), (broadcastPath "8453", callLogText)])
    (by
      intro c hc
      rw [objectKeys_CHAINS] at hc
      simp only [List.mem_cons, List.mem_singleton, List.not_mem_nil, or_false] at hc
      rcases hc with rfl | rfl <;> rfl)

/-- Counterexample to C8 as stated: the empty string is none of `all`,
`abi`, `84532`, `8453`, yet `main` treats it as no argument: it extracts the
interface of `CourseFactory`, writes it, and ends with exit status 0. -/
theorem main_empty_mode_runs_everything :
    ("" : String) ∉ ["all", "abi", "84532", "8453"] ∧
    (sampleWorld [(artifactPath "CourseFactory", artifactText)]).fs.files
        (abiOutputPath "CourseFactory") = none ∧
    (run sampleParse (some "")
        (sampleWorld [(artifactPath "CourseFactory", artifactText)])).1 = 0 ∧
    (run sampleParse (some "")
        (sampleWorld [(artifactPath "CourseFactory", artifactText)])).2.fs.files
        (abiOutputPath "CourseFactory") =
      some "[\n  \x7b\n    \"type\": \"constructor\",\n    \"inputs\": []\n  \x7d\n]" :=
  ⟨by decide, rfl, rfl, rfl⟩

/-- C8, amended. For every mode argument that is not empty, is not `all`,
is not `abi`, is no key of `CHAINS` and no name inherited from
`Object.prototype`, `main` only ensures the directories and calls
`process.exit(1)`: the exit status is 1 and every file is as it was. -/
theorem main_rejects_unknown_mode
    (parse : String → Option JsVal) (w : World) (a : String)
    (h1 : a ≠ "") (h2 : a ≠ "all") (h3 : a ≠ "abi")
    (h4 : a ∉ CHAINS.map Prod.fst) (h5 : a ∉ objectPrototypeMembers) :
    main parse (some a) w = (.exit 1, (ensureDirectories w).2) ∧
      (run parse (some a) w).1 = 1 ∧
      (run parse (some a) w).2.fs.files = w.fs.files := by
  have hm := main_invalid_eq parse a w h1 h2 h3 (chainsGet_unknown a h4 h5)
  refine ⟨hm, ?_, ?_⟩
  · simp only [run, hm]
  · simp only [run, hm]
    exact ensureDirectories_files w

/-- Witness for C8, amended: the mode `foo`. -/
theorem main_rejects_unknown_mode_witness :
    (run sampleParse (some "foo")
        (sampleWorld [(artifactPath "CourseFactory", artifactText)])).1 = 1 ∧
      (run sampleParse (some "foo")
        (sampleWorld [(artifactPath "CourseFactory", artifactText)])).2.fs.files =
        (sampleWorld [(artifactPath "CourseFactory", artifactText)]).fs.files :=
  (main_rejects_unknown_mode sampleParse
    (sampleWorld [(artifactPath "CourseFactory", artifactText)]) "foo"
    (by decide) (by decide) (by decide) (by decide) (by decide)).2

/-- Counterexample to C10 as stated: the artifact of `CourseFactory` does
not exist, that of `CourseNFT` is no JSON; `extractAllABIs` raises the parse
error. -/
theorem extractAllABIs_raises_on_other_malformed_artifact :
    "CourseFactory" ∈ CONTRACTS ∧
    pathExists (sampleWorld [(artifactPath "CourseNFT", brokenText)])
        (artifactPath "CourseFactory") = false ∧
    (extractAllABIs sampleParse
        (sampleWorld [(artifactPath "CourseNFT", brokenText)])).1 = .throw .parseError :=
  ⟨by decide, rfl, rfl⟩

/-- C10, amended. For names `n` and `m` of `CONTRACTS`, `m` other than `n`,
when the artifact of `n` does not exist: the turn of the loop for `n` returns
and changes nothing; `extractAllABIs` ends exactly as the turn for `m` alone
does, so it raises only if that turn raises; `deployments/abi/<n>.json` is as
it was; and when the artifact of `n` is put in place with a text whose turn
returns, the outcome of `extractAllABIs` and the content of
`deployments/abi/<m>.json` are the same as without it. -/
theorem extractAllABIs_skips_missing_artifact
    (parse : String → Option JsVal) (w : World) (n m : String)
    (hn : n ∈ CONTRACTS) (hm : m ∈ CONTRACTS) (hmn : m ≠ n)
    (hf : w.fs.files (artifactPath n) = none)
    (hd : w.fs.dirs (artifactPath n) = false) :
    extractAllABIs.body parse n w = (.ok (), w) ∧
    extractAllABIs parse w = extractAllABIs.body parse m w ∧
    (extractAllABIs parse w).2.fs.files (abiOutputPath n) = w.fs.files (abiOutputPath n) ∧
    ∀ text : String,
      (extractAllABIs.body parse n (writeFile w (artifactPath n) text)).1 = .ok () →
      (extractAllABIs parse (writeFile w (artifactPath n) text)).1 =
          (extractAllABIs parse w).1 ∧
        (extractAllABIs parse (writeFile w (artifactPath n) text)).2.fs.files
            (abiOutputPath m) =
          (extractAllABIs parse w).2.fs.files (abiOutputPath m) := by
  have hskip := extractAllABIs_body_missing parse n w hf hd
  have hne : abiOutputPath n ≠ abiOutputPath m := by
    intro h
    apply hmn
    simp only [CONTRACTS, List.mem_cons, List.mem_singleton, List.not_mem_nil, or_false]
      at hn hm
    rcases hn with rfl | rfl <;> rcases hm with rfl | rfl <;>
      first | rfl | exact absurd h (by decide)
  have hart : artifactPath m ≠ artifactPath n := by
    intro h
    apply hmn
    simp only [CONTRACTS, List.mem_cons, List.mem_singleton, List.not_mem_nil, or_false]
      at hn hm
    rcases hn with rfl | rfl <;> rcases hm with rfl | rfl <;>
      first | rfl | exact absurd h (by decide)
  have hall : extractAllABIs parse w = extractAllABIs.body parse m w := by
    rw [extractAllABIs_eq]
    simp only [CONTRACTS, List.mem_cons, List.mem_singleton, List.not_mem_nil, or_false]
      at hn hm
    rcases hn with rfl | rfl <;> rcases hm with rfl | rfl
    · exact absurd rfl hmn
    · rw [hskip]
    · have hf1 : (extractAllABIs.body parse "CourseFactory" w).2.fs.files
          (artifactPath "CourseNFT") = none := by
        rw [extractAllABIs_body_files parse _ w _ (artifactPath_ne_abiOutputPath _ _), hf]
      have hd1 : (extractAllABIs.body parse "CourseFactory" w).2.fs.dirs
          (artifactPath "CourseNFT") = false := by
        rw [extractAllABIs_body_dirs, hd]
      cases e : extractAllABIs.body parse "CourseFactory" w with
      | mk o w1 =>
        rw [e] at hf1 hd1
        cases o with
        | ok u => exact extractAllABIs_body_missing parse _ w1 hf1 hd1
        | throw e => rfl
        | exit c => rfl
    · exact absurd rfl hmn
  refine ⟨hskip, hall, ?_, ?_⟩
  · rw [hall, extractAllABIs_body_files parse m w _ hne]
  · intro text hok
    have hw'f : ∀ p, p ≠ artifactPath n →
        (writeFile w (artifactPath n) text).fs.files p = w.fs.files p := by
      intro p hp
      simp only [writeFile, hp, if_false]
    have hw'd : (writeFile w (artifactPath n) text).fs.dirs = w.fs.dirs := rfl
    rw [hall, extractAllABIs_eq]
    simp only [CONTRACTS, List.mem_cons, List.mem_singleton, List.not_mem_nil, or_false]
      at hn hm
    rcases hn with rfl | rfl <;> rcases hm with rfl | rfl
    · exact absurd rfl hmn
    · have f1 := extractAllABIs_body_files parse "CourseFactory"
        (writeFile w (artifactPath "CourseFactory") text)
      have d1 := extractAllABIs_body_dirs parse "CourseFactory"
        (writeFile w (artifactPath "CourseFactory") text)
      cases e : extractAllABIs.body parse "CourseFactory"
          (writeFile w (artifactPath "CourseFactory") text) with
      | mk o w1 =>
        rw [e] at hok f1 d1
        simp only at hok f1 d1
        subst hok
        simp only
        have c := extractAllABIs_body_congr parse "CourseNFT" w1 w
          (by rw [f1 _ (artifactPath_ne_abiOutputPath _ _), hw'f _ hart])
          (by rw [d1, hw'd])
        exact ⟨c.1, c.2 _ (by
          rw [f1 _ hne.symm, hw'f _ (artifactPath_ne_abiOutputPath _ _).symm])⟩
    · have c0 := extractAllABIs_body_congr parse "CourseFactory"
        (writeFile w (artifactPath "CourseNFT") text) w (hw'f _ hart) (by rw [hw'd])
      have f1 := extractAllABIs_body_files parse "CourseFactory"
        (writeFile w (artifactPath "CourseNFT") text)
      have d1 := extractAllABIs_body_dirs parse "CourseFactory"
        (writeFile w (artifactPath "CourseNFT") text)
      have c0f := c0.2 (abiOutputPath "CourseFactory")
        (hw'f _ (artifactPath_ne_abiOutputPath _ _).symm)
      cases e : extractAllABIs.body parse "CourseFactory"
          (writeFile w (artifactPath "CourseNFT") text) with
      | mk o w1 =>
        rw [e] at c0 c0f f1 d1
        simp only at c0 c0f f1 d1
        cases o with
        | ok u =>
          simp only
          have c1 := extractAllABIs_body_congr parse "CourseNFT" w1
            (writeFile w (artifactPath "CourseNFT") text)
            (f1 _ (artifactPath_ne_abiOutputPath _ _)) (by rw [d1])
          refine ⟨?_, ?_⟩
          · rw [c1.1, hok, ← c0.1]
          · rw [extractAllABIs_body_files parse "CourseNFT" w1 _ hne.symm, c0f]
        | throw err => exact ⟨c0.1, c0f⟩
        | exit k => exact ⟨c0.1, c0f⟩
    · exact absurd rfl hmn

/-- Witness for C10, amended: no artifact for `CourseFactory`, the sample
artifact for `CourseNFT`. -/
theorem extractAllABIs_skips_missing_artifact_witness :
    extractAllABIs sampleParse (sampleWorld [(artifactPath "CourseNFT", artifactText)]) =
        extractAllABIs.body sampleParse "CourseNFT"
          (sampleWorld [(artifactPath "CourseNFT", artifactText)]) ∧
      (extractAllABIs sampleParse
          (sampleWorld [(artifactPath "CourseNFT", artifactText)])).2.fs.files
          (abiOutputPath "CourseFactory") = none :=
  have h := extractAllABIs_skips_missing_artifact sampleParse
    (sampleWorld [(artifactPath "CourseNFT", artifactText)]) "CourseFactory" "CourseNFT"
    (by decide) (by decide) (by decide) (by rfl) (by rfl)
  ⟨h.2.1, h.2.2.1⟩

/-- The slip behind C8: `constructor` is no key of `CHAINS`, yet
`CHAINS["constructor"]` is the inherited `Object` function, which is truthy;
`main` takes the single-chain branch, writes the interface of
`CourseFactory` and ends with exit status 0. -/
theorem main_inherited_name_mode :
    "constructor" ∉ CHAINS.map Prod.fst ∧
    (chainsGet "constructor").isTruthy = true ∧
    (run sampleParse (some "constructor")
        (sampleWorld [(artifactPath "CourseFactory", artifactText)])).1 = 0 ∧
    (run sampleParse (some "constructor")
        (sampleWorld [(artifactPath "CourseFactory", artifactText)])).2.fs.files
        (abiOutputPath "CourseFactory") =
      some "[\n  \x7b\n    \"type\": \"constructor\",\n    \"inputs\": []\n  \x7d\n]" :=
  ⟨by decide, rfl, rfl, rfl⟩

/-- C11. For every chain identifier, when nothing is at
`broadcast/Counter.s.sol/<chainId>/run-latest.json`, `extractAddressesForChain`
returns `null`, raises nothing and leaves the world, with every file, as it
was. -/
theorem extractAddressesForChain_absent_without_log
    (parse : String → Option JsVal) (w : World) (c : String)
    (h : pathExists w (broadcastPath c) = false) :
    extractAddressesForChain parse c w = (.ok none, w) := by
  obtain ⟨hf, hd⟩ := pathExists_false w _ h
  exact extractAddressesForChain_missing parse c w hf hd

/-- Witness for C11: chain 84532 in a world that holds only an artifact. -/
theorem extractAddressesForChain_absent_without_log_witness :
    extractAddressesForChain sampleParse "84532"
        (sampleWorld [(artifactPath "CourseFactory", artifactText)]) =
      (.ok none, sampleWorld [(artifactPath "CourseFactory", artifactText)]) :=
  extractAddressesForChain_absent_without_log sampleParse
    (sampleWorld [(artifactPath "CourseFactory", artifactText)]) "84532" (by rfl)

/-- C18. Two runs of `extractAddressesForChain` for the same chain
identifier on the same file system, at any two clocks: when one returns a
record so does the other, and the two records are the same but for the
timestamp, each being the reading of its own clock; one returns `null`
exactly when the other does; one raises an error exactly when the other
raises it. -/
theorem extractAddressesForChain_deterministic_up_to_timestamp
    (parse : String → Option JsVal) (c : String) (w₁ w₂ : World)
    (hfs : w₁.fs = w₂.fs) :
    (∀ r, (extractAddressesForChain parse c w₁).1 = .ok (some r) →
      r.timestamp = w₁.clock 0 ∧
      (extractAddressesForChain parse c w₂).1 =
        .ok (some { chainId := r.chainId, chainName := r.chainName, explorer := r.explorer,
                    timestamp := w₂.clock 0, contracts := r.contracts })) ∧
    ((extractAddressesForChain parse c w₁).1 = .ok none ↔
      (extractAddressesForChain parse c w₂).1 = .ok none) ∧
    (∀ e, (extractAddressesForChain parse c w₁).1 = .throw e ↔
      (extractAddressesForChain parse c w₂).1 = .throw e) := by
  have hw : w₂ = { w₁ with clock := w₂.clock } := by
    cases w₁; cases w₂; simp only at hfs; subst hfs; rfl
  have h := extractAddressesForChain_clock parse c w₁ w₂.clock
  rw [← hw] at h
  rw [h]
  rcases extractAddressesForChain_cases parse c w₁ with e | ⟨err, e⟩ |
    ⟨_, _, _, r', _, _, _, _, _, _, hts, _, _, e⟩
  · rw [e]; simp
  · rw [e]; simp
  · rw [e]
    refine ⟨?_, by simp, by simp⟩
    intro r hr
    cases hr
    exact ⟨hts, rfl⟩

/-- Witness for C18: the sample log of chain 8453 read at two instants. -/
theorem extractAddressesForChain_deterministic_up_to_timestamp_witness :
    (extractAddressesForChain sampleParse "8453"
        (sampleWorldAt [(broadcastPath "8453", redeployLogText)] "2024-05-01T12:00:00.000Z")).1 =
      .ok (some { chainId := .num 8453, chainName := .str "Base Mainnet",
                  explorer := .str "https://base.blockscout.com",
                  timestamp := "2024-05-01T12:00:00.000Z",
                  contracts := [("CourseFactory", .str "0x04")] }) ∧
    (extractAddressesForChain sampleParse "8453"
        (sampleWorldAt [(broadcastPath "8453", redeployLogText)] "2025-01-01T00:00:00.000Z")).1 =
      .ok (some { chainId := .num 8453, chainName := .str "Base Mainnet",
                  explorer := .str "https://base.blockscout.com",
                  timestamp := "2025-01-01T00:00:00.000Z",
                  contracts := [("CourseFactory", .str "0x04")] }) :=
  ⟨by rfl,
    ((extractAddressesForChain_deterministic_up_to_timestamp sampleParse "8453"
      (sampleWorldAt [(broadcastPath "8453", redeployLogText)] "2024-05-01T12:00:00.000Z")
      (sampleWorldAt [(broadcastPath "8453", redeployLogText)] "2025-01-01T00:00:00.000Z")
      (by rfl)).1 _ (by rfl)).2⟩

/-- C12. An input file that exists and does not parse makes the operation
that reads it raise the parse error, and the error is not caught on the way
up. For an artifact of a name `n` of `CONTRACTS`: `extractABI` and the turn
of the loop for `n` raise it, `extractAllABIs` raises, `main` ends with exit
status 1 in every mode, and `deployments/abi/<n>.json` keeps its content. For
the broadcast file of a chain `c`: `extractAddressesForChain` raises it, and
when `c` is configured `extractAllAddresses` raises and `main`, in the modes
that read the file, ends with exit status 1, `deployments/addresses.json`
keeping its content whatever the chains before `c` returned. -/
theorem malformed_input_raises_and_keeps_output
    (parse : String → Option JsVal) (w : World) :
    (∀ n text, n ∈ CONTRACTS → w.fs.files (artifactPath n) = some text → parse text = none →
      extractABI parse n w = (.throw .parseError, w) ∧
      extractAllABIs.body parse n w = (.throw .parseError, w) ∧
      (∃ e, (extractAllABIs parse w).1 = .throw e) ∧
      (extractAllABIs parse w).2.fs.files (abiOutputPath n) = w.fs.files (abiOutputPath n) ∧
      ∀ arg, (run parse arg w).1 = 1 ∧
        (run parse arg w).2.fs.files (abiOutputPath n) = w.fs.files (abiOutputPath n)) ∧
    (∀ c text, w.fs.files (broadcastPath c) = some text → parse text = none →
      extractAddressesForChain parse c w = (.throw .parseError, w) ∧
      (c ∈ CHAINS.map Prod.fst →
        (∃ e, (extractAllAddresses parse w).1 = .throw e) ∧
        (extractAllAddresses parse w).2.fs.files addressesPath = w.fs.files addressesPath ∧
        ∀ arg, arg = none ∨ arg = some "" ∨ arg = some "all" ∨ arg = some c →
          (run parse arg w).1 = 1 ∧
          (run parse arg w).2.fs.files addressesPath = w.fs.files addressesPath)) := by
  constructor
  · intro n text hn hf hp
    obtain ⟨he, hkeep⟩ := extractAllABIs_malformed parse n w text hn hf hp
    refine ⟨extractABI_malformed parse n w text hf hp,
      extractAllABIs_body_malformed parse n w text hf hp, he, hkeep, ?_⟩
    intro arg
    obtain ⟨h1, h2, _⟩ := run_malformed_artifact parse n w text hn hf hp arg
    exact ⟨h1, h2⟩
  · intro c text hf hp
    refine ⟨extractAddressesForChain_malformed parse c w text hf hp, ?_⟩
    intro hc
    obtain ⟨he, hfs⟩ := extractAllAddresses_malformed parse c w text hc hf hp
    refine ⟨he, by rw [hfs], ?_⟩
    intro arg harg
    exact run_malformed_log parse c w text hc hf hp arg harg

/-- Witness for C12: the artifact of `CourseNFT` is no JSON and an older
interface file is in place; in another world chain 8453 has a deployment,
the broadcast file of chain 84532 is no JSON and a registry from an earlier
run is in place. Both runs end with exit status 1 and the older files stay. -/
theorem malformed_input_raises_and_keeps_output_witness :
    ((run sampleParse (some "abi")
        (sampleWorld [(abiOutputPath "CourseNFT", "[]"),
          (artifactPath "CourseNFT", brokenText)])).1 = 1 ∧
      (run sampleParse (some "abi")
        (sampleWorld [(abiOutputPath "CourseNFT", "[]"),
          (artifactPath "CourseNFT", brokenText)])).2.fs.files (abiOutputPath "CourseNFT") =
        some "[]") ∧
    ((run sampleParse none
        (sampleWorld [(addressesPath, "old"), (broadcastPath "8453", redeployLogText),
          (broadcastPath "84532", brokenText)])).1 = 1 ∧
      (run sampleParse none
        (sampleWorld [(addressesPath, "old"), (broadcastPath "8453", redeployLogText),
          (broadcastPath "84532", brokenText)])).2.fs.files addressesPath = some "old") :=
  ⟨((malformed_input_raises_and_keeps_output sampleParse
      (sampleWorld [(abiOutputPath "CourseNFT", "[]"),
        (artifactPath "CourseNFT", brokenText)])).1 "CourseNFT" brokenText
      (by decide) (by rfl) (by rfl)).2.2.2.2 (some "abi"),
    (((malformed_input_raises_and_keeps_output sampleParse
      (sampleWorld [(addressesPath, "old"), (broadcastPath "8453", redeployLogText),
        (broadcastPath "84532", brokenText)])).2 "84532" brokenText
      (by rfl) (by rfl)).2 (by decide)).2.2 none (Or.inl rfl)⟩

/-- C16, the failing input: `constructor` has no descriptor in `CHAINS`, and
its broadcast file holds a `CREATE` of `CourseFactory`. The lookup
`CHAINS["constructor"]` finds the inherited `Object` function, so reading
`chainName` and `explorer` raises nothing: `extractAddressesForChain` returns
a record whose `chainId` is `NaN` and whose `chainName` and `explorer` are
`undefined`, and `main` in mode `constructor` writes it to
`deployments/addresses.json` and ends with exit status 0. -/
theorem extractAddressesForChain_inherited_name_returns_record :
    "constructor" ∉ CHAINS.map Prod.fst ∧
    (extractAddressesForChain sampleParse "constructor"
        (sampleWorld [(broadcastPath "constructor", redeployLogText)])).1 =
      .ok (some { chainId := .nan, chainName := .undefined, explorer := .undefined,
                  timestamp := "2024-05-01T12:00:00.000Z",
                  contracts := [("CourseFactory", .str "0x04")] }) ∧
    (run sampleParse (some "constructor")
        (sampleWorld [(broadcastPath "constructor", redeployLogText)])).1 = 0 ∧
    (run sampleParse (some "constructor")
        (sampleWorld [(broadcastPath "constructor", redeployLogText)])).2.fs.files
        addressesPath =
      some ("\x7b\n  \"constructor\": \x7b\n    \"chainId\": null,\n" ++
        "    \"timestamp\": \"2024-05-01T12:00:00.000Z\",\n" ++
        "    \"contracts\": \x7b\n      \"CourseFactory\": \"0x04\"\n    \x7d\n  \x7d\n\x7d") :=
  ⟨by decide, rfl, rfl, rfl⟩

end ExtractDeployment
